import Mathlib

/-!
Verification of the annotation geometry and persistence core of the
ImageLabeller repository (a GTK image-annotation tool written in Python).

The Python sources are shallowly embedded:

* Python `str` values handled character by character are modelled as
  `List Char`; `str` values treated atomically (regex patterns, status
  messages) stay `String`.
* Python `int`/`float` coordinate arithmetic is modelled with `Int` and `ℚ`
  (exact rationals; binary64 rounding is not modelled).
* Python `int(...)` truncation toward zero is `truncQ`.
* Fallible Python code (a statement that can raise) is embedded as
  `Option`/`Except`, `none`/`.error` standing for the raised exception.
* External collaborators (the file system, the `re` module) enter as
  explicit function arguments describing their outcome.

Sources embedded: `label_editor/core/file_io.py` (`DATParser`),
`label_editor/core/data_types.py` (`BoundingBox`),
`label_editor/core/image_rotation.py` (`ImageRotator.rotate_bounding_boxes`),
`label_editor/core/validation.py` (`ValidationEngine`),
`label_editor/business/canvas_logic.py` (`CanvasState`,
`BoxInteractionManager`) and `label_editor/business/label_logic.py`
(`LabelManager.save_to_file`).
-/

/-- `BoundingBox` of `data_types.py` as produced by the DAT parser and the
rotation code: integer coordinates, a class id and the OCR text.  The
UI-only `selected`/`name` attributes are irrelevant to the codec and are
modelled separately on the canvas side (`BBox`). -/
structure DatBox where
  x : Int
  y : Int
  width : Int
  height : Int
  class_id : Int
  ocr_text : List Char
deriving DecidableEq

/-- The characters stripped by Python `str.strip()` with no argument
(ASCII whitespace; the parser opens DAT files with `encoding='ascii'`, so
non-ASCII whitespace cannot occur in its input). -/
def isPySpace (c : Char) : Bool :=
  c = ' ' || c = '\t' || c = '\n' || c = '\r' || c = '\x0B' || c = '\x0C'

/-- Python `str.strip()`: drop leading and trailing whitespace. -/
def pyStrip (l : List Char) : List Char :=
  ((l.dropWhile isPySpace).reverse.dropWhile isPySpace).reverse

/-- Split at the first occurrence of `sep`: `some (before, after)`, or
`none` when `sep` does not occur.  Python `s.split(sep, 1)` returns
`[before, after]` in the first case and `[s]` in the second. -/
def breakOn (sep : Char) : List Char → Option (List Char × List Char)
  | [] => none
  | c :: rest =>
    if c = sep then some ([], rest)
    else (breakOn sep rest).map (fun p => (c :: p.1, p.2))

/-- Line splitting as Python text-mode file iteration sees it (universal
newlines): `\r\n`, `\r` and `\n` all end a line.  An empty tail segment is
produced for a trailing newline; the parser skips blank lines, so this is
observationally the same as Python's iteration. -/
def splitNL : List Char → List (List Char)
  | [] => [[]]
  | '\r' :: '\n' :: rest => [] :: splitNL rest
  | '\r' :: rest => [] :: splitNL rest
  | '\n' :: rest => [] :: splitNL rest
  | c :: rest =>
    match splitNL rest with
    | [] => [[c]]
    | l :: ls => (c :: l) :: ls

/-- Helper for `pySplitWs`: accumulates the current word reversed. -/
def pySplitWsAux (cur : List Char) : List Char → List (List Char)
  | [] => if cur.isEmpty then [] else [cur.reverse]
  | c :: rest =>
    if isPySpace c then
      if cur.isEmpty then pySplitWsAux [] rest
      else cur.reverse :: pySplitWsAux [] rest
    else pySplitWsAux (c :: cur) rest

/-- Python `str.split()` with no separator: split on whitespace runs,
producing no empty fields. -/
def pySplitWs (l : List Char) : List (List Char) :=
  pySplitWsAux [] l

/-- Decimal value of a digit string (most significant first). -/
def digitsToNat (l : List Char) : Nat :=
  l.foldl (fun a c => 10 * a + (c.toNat - 48)) 0

/-- After the first digit, Python `int()` accepts further digits with
single underscores strictly between digits. -/
def intDigitsRest : List Char → Bool
  | [] => true
  | c :: rest =>
    if c = '_' then
      match rest with
      | d :: rest2 => d.isDigit && intDigitsRest rest2
      | [] => false
    else c.isDigit && intDigitsRest rest

/-- The digit part of a Python `int()` literal: nonempty, starts with a
digit, underscores only between digits. -/
def intDigits : List Char → Bool
  | [] => false
  | c :: rest => c.isDigit && intDigitsRest rest

/-- Model of Python `int(s)` on ASCII input: surrounding whitespace is
stripped, an optional single `+`/`-` sign precedes the digits.  `none` is
the `ValueError` Python raises on anything else.  (Python also accepts
non-ASCII decimal digits, which cannot reach this parser because DAT files
are opened with `encoding='ascii'`.) -/
def parsePyInt (l : List Char) : Option Int :=
  match pyStrip l with
  | '+' :: r => if intDigits r then some (digitsToNat (r.filter (· ≠ '_'))) else none
  | '-' :: r => if intDigits r then some (-(digitsToNat (r.filter (· ≠ '_')) : Int)) else none
  | t => if intDigits t then some (digitsToNat (t.filter (· ≠ '_'))) else none

/-- Model of Python `int(float(s))`: `float(s)` parses a signed fixed-point
decimal literal and `int` truncates toward zero, which is the sign applied
to the integer part.  Only the fixed-point grammar `[±]digits[.digits]` /
`[±].digits` is modelled: exponents, `inf`/`nan`, underscore grouping and
binary64 rounding of huge values are not (none of them occurs in the
verified scenarios).  `none` is the `ValueError` on malformed input. -/
def pyFloatIntPart (body : List Char) : Option Nat :=
  match breakOn '.' body with
  | none =>
    if !body.isEmpty && body.all Char.isDigit then some (digitsToNat body) else none
  | some (a, b) =>
    if (!a.isEmpty || !b.isEmpty) && a.all Char.isDigit && b.all Char.isDigit then
      some (digitsToNat a)
    else none

/-- Model of Python `int(float(s))`, continued: strip, take the sign, and
keep the integer part of the fixed-point literal. -/
def pyIntFloat (l : List Char) : Option Int :=
  match pyStrip l with
  | '+' :: r => (pyFloatIntPart r).map (fun ip => (ip : Int))
  | '-' :: r => (pyFloatIntPart r).map (fun ip => -(ip : Int))
  | t => (pyFloatIntPart t).map (fun ip => (ip : Int))

/-- Decimal digits of `n`, most significant first, by fuel-bounded
recursion (structural, so that it evaluates inside the kernel). -/
def natDigitsAux : Nat → Nat → List Char
  | 0, _ => []
  | fuel + 1, n =>
    if n < 10 then [Nat.digitChar n]
    else natDigitsAux fuel (n / 10) ++ [Nat.digitChar (n % 10)]

/-- Decimal digits of `n`, most significant first. -/
def natDigits (n : Nat) : List Char :=
  natDigitsAux (n + 1) n

/-- Model of Python `str(i)` / f-string interpolation of an `int`. -/
def intToChars (i : Int) : List Char :=
  if i < 0 then '-' :: natDigits i.natAbs else natDigits i.toNat

/-- The character-level content of the sanitisation chain of
`DATParser.save_dat_file`: curly quotes and the `ﬂ`/`ﬁ` ligatures are
replaced by ASCII equivalents.  Each replaced pattern is a single
character and no replacement produces a later-replaced character, so the
sequential `str.replace` chain equals this character map. -/
def sanitizeChar (c : Char) : List Char :=
  if c = '‘' then ['\x27']
  else if c = '’' then ['\x27']
  else if c = '“' then ['"']
  else if c = '”' then ['"']
  else if c = 'ﬂ' then ['f', 'l']
  else if c = 'ﬁ' then ['f', 'i']
  else [c]

/-- OCR-text sanitisation of `DATParser.save_dat_file`: the replacement
chain followed by `encode('ascii', 'ignore')`, which drops every remaining
non-ASCII character. -/
def sanitize (l : List Char) : List Char :=
  (l.flatMap sanitizeChar).filter (fun c => c.toNat < 128)

/-- The OCR texts for which serialisation is lossless: ASCII only (so the
sanitiser is the identity), no carriage return or line feed (which would
break the line structure), and no trailing whitespace (which
`line.strip()` would remove on parse). -/
def cleanOcr (l : List Char) : Bool :=
  l.all (fun c => decide (c.toNat < 128) && c != '\r' && c != '\n') &&
  (match l.getLast? with
   | some c => !isPySpace c
   | none => true)

/-- One serialized DAT line:
`f"{class_id} {x} {y} {width} {height} #{ocr_text}"` with the sanitised
OCR text. -/
def lineOf (b : DatBox) : List Char :=
  intToChars b.class_id ++ ' ' :: intToChars b.x ++ ' ' :: intToChars b.y ++
    ' ' :: intToChars b.width ++ ' ' :: intToChars b.height ++
    ' ' :: '#' :: sanitize b.ocr_text

/-- Stable insertion of `b` after every element with a strictly smaller
class id and after earlier elements with an equal class id. -/
def insertByClassId (b : DatBox) : List DatBox → List DatBox
  | [] => [b]
  | c :: rest =>
    if c.class_id < b.class_id then c :: insertByClassId b rest
    else b :: c :: rest

/-- Model of Python `sorted(boxes, key=lambda b: b.class_id)`: a stable
sort ascending by class id (insertion sort, which is stable and evaluates
inside the kernel). -/
def sortByClassId (l : List DatBox) : List DatBox :=
  l.foldr insertByClassId []

/-- Python `'\r\n'.join(lines)`. -/
def joinCRLF : List (List Char) → List Char
  | [] => []
  | [l] => l
  | l :: ls => l ++ '\r' :: '\n' :: joinCRLF ls

/-- The exact character content `DATParser.save_dat_file` writes: one line
per box, sorted ascending by class id, joined with CRLF
(`'\r\n'.join(lines)`). -/
def save_dat_content (boxes : List DatBox) : List Char :=
  joinCRLF ((sortByClassId boxes).map lineOf)

/-- What a call to `DATParser.save_dat_file` does, beyond the content it
writes: whether an exception escapes to the caller and whether the file
was written.  `writeOutcome` is the file system's verdict on
`open(file_path, 'wb')` + `write`. -/
structure SaveOutcome where
  raised : Bool
  written : Option (List Char)
deriving DecidableEq

/-- `DATParser.save_dat_file`: the whole body sits in
`try: ... except Exception as e: print(...)`, so a failed write is printed
and swallowed — no exception ever escapes (`raised := false` in both
branches). -/
def save_dat_file (writeOutcome : Except String Unit) (boxes : List DatBox) : SaveOutcome :=
  match writeOutcome with
  | .ok _ => { raised := false, written := some (save_dat_content boxes) }
  | .error _ => { raised := false, written := none }

/-- Per-line outcome of the `parse_dat_file` loop body: a parsed box, a
silently/warned skipped line, or an exception escaping the loop to the
outer `except` (which aborts the loop). -/
inductive LineResult where
  | box (b : DatBox)
  | skip
  | abort
deriving DecidableEq

/-- The loop body of `DATParser.parse_dat_file` for one raw line.
`int(parts[0])` is *not* inside the inner `try`, so a non-numeric class id
raises `ValueError` out of the loop (`.abort`); a short or non-numeric
coordinate field only skips the line (`.skip`). -/
def parse_line (raw : List Char) : LineResult :=
  let line := pyStrip raw
  if line.isEmpty then .skip
  else
    -- parts = line.split(' ', 1); if len(parts) < 2: parts = line.split('\t', 1)
    let partsOpt :=
      match breakOn ' ' line with
      | some p => some p
      | none => breakOn '\t' line
    match partsOpt with
    | none => .skip -- len(parts) < 2: the line is ignored
    | some (p0, coords_text) =>
      match parsePyInt p0 with
      | none => .abort -- class_id = int(parts[0]) raises ValueError
      | some class_id =>
        let split : List Char × List Char :=
          match breakOn '#' coords_text with
          | some p => p
          | none => (coords_text, [])
        let coords := pySplitWs (pyStrip split.1)
        match coords with
        | c0 :: c1 :: c2 :: c3 :: _ =>
          match pyIntFloat c0, pyIntFloat c1, pyIntFloat c2, pyIntFloat c3 with
          | some x, some y, some w, some h => .box ⟨x, y, w, h, class_id, split.2⟩
          | _, _, _, _ => .skip -- inner except (ValueError): skip-and-warn
        | _ => .skip -- len(coords) < 4

/-- The `for line in f` loop: boxes accumulate until a line aborts, in
which case the outer `except` prints the error and the boxes collected so
far are returned. -/
def parseDatLines : List (List Char) → List DatBox
  | [] => []
  | l :: ls =>
    match parse_line l with
    | .box b => b :: parseDatLines ls
    | .skip => parseDatLines ls
    | .abort => []

/-- `DATParser.parse_dat_file` on the character content of the file. -/
def parse_dat_file (content : List Char) : List DatBox :=
  parseDatLines (splitNL content)

/-- The slice of `LabelManager` state that `save_to_file` touches. -/
structure LabelMState where
  boxes : List DatBox
  unsaved_changes : Bool
deriving DecidableEq

/-- `LabelManager.save_to_file`: calls `DATParser.save_dat_file`, and only
an exception escaping it reaches the `except` branch (returning `False`
and leaving the state alone); otherwise `unsaved_changes` is cleared and
`True` returned. -/
def save_to_file (writeOutcome : Except String Unit) (s : LabelMState) : Bool × LabelMState :=
  let r := save_dat_file writeOutcome s.boxes
  if r.raised then (false, s)
  else (true, { s with unsaved_changes := false })

/-- `ImageRotator.rotate_bounding_boxes`.  The three 90°-multiple branches
are exact integer arithmetic.  The arbitrary-angle branch
(`_transform_box_arbitrary`) computes with floating-point trigonometry and
is outside the scope of this embedding; it is left as the identity copy
here and is unreachable in every verified statement (which all use
`angle = 90`). -/
def rotate_bounding_boxes (boxes : List DatBox) (angle : Int)
    (orig_width orig_height : Int) : List DatBox :=
  if boxes.isEmpty || angle % 360 = 0 then
    boxes.map (fun box => ⟨box.x, box.y, box.width, box.height, box.class_id, box.ocr_text⟩)
  else
    let a := angle % 360
    boxes.map (fun box =>
      if a = 90 then
        ⟨box.y, orig_width - box.x - box.width, box.height, box.width,
          box.class_id, box.ocr_text⟩
      else if a = 180 then
        ⟨orig_width - box.x - box.width, orig_height - box.y - box.height,
          box.width, box.height, box.class_id, box.ocr_text⟩
      else if a = 270 then
        ⟨orig_height - box.y - box.height, box.x, box.height, box.width,
          box.class_id, box.ocr_text⟩
      else
        ⟨box.x, box.y, box.width, box.height, box.class_id, box.ocr_text⟩)

/-- One entry of the class configuration as `ValidationEngine` reads it: a
dict with an `id`, a `name`, optionally a `regex_pattern` key
(`Option`) — `"regex_pattern" not in class_info` is `none`. -/
structure VClassInfo where
  id : Int
  name : String
  regex_pattern : Option String
deriving DecidableEq

/-- The `class_config` dict: its `"classes"` list. -/
structure VClassConfig where
  classes : List VClassInfo
deriving DecidableEq

/-- The outcome of Python `re.match(pattern, text)`: a boolean (whether a
match object was returned) or a raised `re.error` with its message.  The
`re` module is an external collaborator, passed in as a function. -/
def PyRegex : Type := String → String → Except String Bool

/-- `ValidationEngine._get_class_info`: first configured class with the
given id, else `None`. -/
def get_class_info (cfg : VClassConfig) (class_id : Int) : Option VClassInfo :=
  cfg.classes.find? (fun cls => cls.id == class_id)

/-- `ValidationEngine.validate_ocr_text`: empty text is valid; a missing
class or missing pattern is valid; otherwise `bool(re.match(...))`, and a
raised `re.error` is caught and turned into `False`. -/
def validate_ocr_text (rematch : PyRegex) (cfg : VClassConfig)
    (ocr_text : String) (class_id : Int) : Bool :=
  if ocr_text = "" then true
  else
    match get_class_info cfg class_id with
    | none => true
    | some class_info =>
      match class_info.regex_pattern with
      | none => true
      | some regex_pattern =>
        match rematch regex_pattern ocr_text with
        | .ok b => b
        | .error _ => false

/-- The dict `ValidationEngine.get_validation_status` returns: the keys it
may carry, absent keys as `none`. -/
structure VStatus where
  valid : Bool
  message : Option String
  error : Option String
  pattern : Option String
deriving DecidableEq

/-- `ValidationEngine.get_validation_status`: a total function returning a
status dict; a raised `re.error` is caught and surfaced in the `error`
field, never rethrown. -/
def get_validation_status (rematch : PyRegex) (cfg : VClassConfig)
    (ocr_text : String) (class_id : Int) : VStatus :=
  match get_class_info cfg class_id with
  | none => ⟨false, none, some ("Unknown class ID: " ++ toString class_id), none⟩
  | some class_info =>
    match class_info.regex_pattern with
    | none => ⟨true, some "No validation pattern defined", none, none⟩
    | some regex_pattern =>
      if ocr_text = "" then ⟨true, some "Empty text", none, none⟩
      else
        match rematch regex_pattern ocr_text with
        | .ok is_valid =>
          ⟨is_valid, some (if is_valid then "✓ Valid format" else "✗ Invalid format"),
            none, some regex_pattern⟩
        | .error e => ⟨false, none, some ("Invalid regex pattern: " ++ e), none⟩

/-- Python `int(x)` on a float, modelled on ℚ: truncation toward zero
(`num.tdiv den`, the denominator being positive). -/
def truncQ (q : ℚ) : Int :=
  q.num.tdiv q.den

/-- The fields of `CanvasState` (canvas_logic.py) that the coordinate
transforms and box manipulation read: the scale, the pan offsets, and the
box-start snapshot taken by `start_resize`/`start_drag`.  Python floats
are modelled as exact rationals. -/
structure CanvasState where
  scale_factor : ℚ
  offset_x : ℚ
  offset_y : ℚ
  box_start_x : ℚ
  box_start_y : ℚ
  box_start_width : ℚ
  box_start_height : ℚ

/-- `CanvasState.image_to_canvas`: `int(x*scale + offset)` per axis. -/
def image_to_canvas (cs : CanvasState) (x y : Int) : Int × Int :=
  (truncQ (x * cs.scale_factor + cs.offset_x), truncQ (y * cs.scale_factor + cs.offset_y))

/-- `CanvasState.canvas_to_image`: `int((x - offset) / scale)` per axis.
The source has *no* guard: when `scale_factor` is `0` the division raises
`ZeroDivisionError`, modelled as `none`. -/
def canvas_to_image (cs : CanvasState) (x y : Int) : Option (Int × Int) :=
  if cs.scale_factor = 0 then none
  else some (truncQ ((x - cs.offset_x) / cs.scale_factor),
             truncQ ((y - cs.offset_y) / cs.scale_factor))

/-- `BoundingBox` as the canvas code sees it: coordinates may be
fractional mid-gesture (floats, modelled as ℚ), plus the UI flags set by
the constructor (`selected = False`, `name` defaulting to
`f"class_{class_id}"` when no class name is given). -/
structure BBox where
  x : ℚ
  y : ℚ
  width : ℚ
  height : ℚ
  class_id : Int
  ocr_text : String
  selected : Bool
  name : String

/-- The state `BoxInteractionManager` mutates: the box list and the
selection.  Python's `selected_box` is an object reference into the list;
it is modelled as an index (`select_box` is only ever called with `None`
or a box of the list). -/
structure BIMState where
  boxes : List BBox
  selectedIdx : Option Nat

/-- Write the `selected` flag of the box at index `i` (out-of-range: no
box to mutate, the list is unchanged). -/
def setSelAt : List BBox → Nat → Bool → List BBox
  | [], _, _ => []
  | b :: rest, 0, v => { b with selected := v } :: rest
  | b :: rest, n + 1, v => b :: setSelAt rest n v

/-- `BoxInteractionManager.set_boxes`: install a new list, clear the
selection. -/
def set_boxes (boxes : List BBox) : BIMState :=
  { boxes := boxes, selectedIdx := none }

/-- `BoxInteractionManager.select_box`: clear the previously selected
box's flag, then set the new box's flag and remember it (or clear the
selection for `None`). -/
def select_box (s : BIMState) (i : Option Nat) : BIMState :=
  let bs :=
    match s.selectedIdx with
    | some j => setSelAt s.boxes j false
    | none => s.boxes
  match i with
  | some k => { boxes := setSelAt bs k true, selectedIdx := some k }
  | none => { boxes := bs, selectedIdx := none }

/-- `BoxInteractionManager.delete_selected_box`: remove the selected box
from the list (Python `list.remove` removes the identical object) and
clear the selection; without a selection it does nothing. -/
def delete_selected_box (s : BIMState) : BIMState :=
  match s.selectedIdx with
  | some j => { boxes := s.boxes.eraseIdx j, selectedIdx := none }
  | none => s

/-- The class-id auto-assignment of `create_box`: default to the first
configured id, then take the first configured id not already used by an
existing box. -/
def firstUnusedClassId (classIds : List Int) (boxes : List BBox) : Int :=
  let used := boxes.map (·.class_id)
  match classIds.find? (fun cid => !(used.contains cid)) with
  | some cid => cid
  | none => classIds.headD 0

/-- One entry of the `class_config["classes"]` list as `create_box` reads
it. -/
structure CClassInfo where
  id : Int
  name : String
deriving DecidableEq

/-- `BoxInteractionManager.create_box`: convert both gesture endpoints to
image space, abort (`(s, none)`) when either extent is under 10, else
append a normalised box with the auto-assigned class and select it.
`.error` is an exception escaping the call: `ZeroDivisionError` from
`canvas_to_image` when the scale is 0, or `IndexError` from
`available_classes[0]` when the class list is empty. -/
def create_box (cs : CanvasState) (s : BIMState) (start_x start_y end_x end_y : Int)
    (classes : List CClassInfo) : Except Unit (BIMState × Option BBox) :=
  match canvas_to_image cs start_x start_y, canvas_to_image cs end_x end_y with
  | some (start_img_x, start_img_y), some (end_img_x, end_img_y) =>
    if (end_img_x - start_img_x).natAbs < 10 || (end_img_y - start_img_y).natAbs < 10 then
      .ok (s, none)
    else
      match classes with
      | [] => .error () -- available_classes[0] raises IndexError
      | _ :: _ =>
        let class_id := firstUnusedClassId (classes.map (·.id)) s.boxes
        let class_name :=
          match classes.find? (fun cls => cls.id == class_id) with
          | some cls => cls.name
          | none => "unknown"
        let new_box : BBox :=
          { x := (min start_img_x end_img_x : Int)
            y := (min start_img_y end_img_y : Int)
            width := ((end_img_x - start_img_x).natAbs : Nat)
            height := ((end_img_y - start_img_y).natAbs : Nat)
            class_id := class_id
            ocr_text := ""
            selected := false
            name := class_name }
        let s1 : BIMState := { s with boxes := s.boxes ++ [new_box] }
        .ok (select_box s1 (some s.boxes.length), some { new_box with selected := true })
  | _, _ => .error () -- ZeroDivisionError from canvas_to_image

/-- `BoxInteractionManager.update_box_position`: move the box from the
gesture's start snapshot by the canvas delta divided by the scale, with
`max(0, ...)` floors.  No guard on the scale: division by a zero
`scale_factor` raises (`none`). -/
def update_box_position (cs : CanvasState) (box : BBox) (canvas_dx canvas_dy : Int) :
    Option BBox :=
  if cs.scale_factor = 0 then none
  else
    some { box with
      x := max 0 (cs.box_start_x + canvas_dx / cs.scale_factor)
      y := max 0 (cs.box_start_y + canvas_dy / cs.scale_factor) }

/-- The handle-specific delta formulas of `update_box_size`, before the
final minimum-size clamp.  An unrecognised handle string falls through all
branches and leaves the box unchanged, exactly as the Python `elif` chain
does. -/
def update_box_size_raw (cs : CanvasState) (box : BBox) (canvas_dx canvas_dy : Int)
    (handle : String) : BBox :=
  let img_dx := canvas_dx / cs.scale_factor
  let img_dy := canvas_dy / cs.scale_factor
  if handle = "nw" then
    { box with
        x := cs.box_start_x + img_dx
        y := cs.box_start_y + img_dy
        width := cs.box_start_width - img_dx
        height := cs.box_start_height - img_dy }
  else if handle = "ne" then
    { box with
        y := cs.box_start_y + img_dy
        width := cs.box_start_width + img_dx
        height := cs.box_start_height - img_dy }
  else if handle = "sw" then
    { box with
        x := cs.box_start_x + img_dx
        width := cs.box_start_width - img_dx
        height := cs.box_start_height + img_dy }
  else if handle = "se" then
    { box with
        width := cs.box_start_width + img_dx
        height := cs.box_start_height + img_dy }
  else if handle = "n" then
    { box with
        y := cs.box_start_y + img_dy
        height := cs.box_start_height - img_dy }
  else if handle = "s" then
    { box with height := cs.box_start_height + img_dy }
  else if handle = "w" then
    { box with
        x := cs.box_start_x + img_dx
        width := cs.box_start_width - img_dx }
  else if handle = "e" then
    { box with width := cs.box_start_width + img_dx }
  else box

/-- The final clamp of `update_box_size`: `if box.width < 10: box.width = 10`
and likewise for the height, applied after the delta formula. -/
def clampMin10 (b : BBox) : BBox :=
  { b with width := if b.width < 10 then 10 else b.width,
           height := if b.height < 10 then 10 else b.height }

/-- `BoxInteractionManager.update_box_size`: the deltas are divided by the
scale first (raising on a zero scale, modelled `none`), then the
handle-specific formula, then the minimum-size clamp. -/
def update_box_size (cs : CanvasState) (box : BBox) (canvas_dx canvas_dy : Int)
    (handle : String) : Option BBox :=
  if cs.scale_factor = 0 then none
  else some (clampMin10 (update_box_size_raw cs box canvas_dx canvas_dy handle))

/-- States of `BoxInteractionManager` reachable from `set_boxes` with
freshly parsed boxes (all `selected` flags false) by `select_box` (with
`None` or a box of the list), `create_box` (any outcome that does not
raise) and `delete_selected_box`. -/
inductive Reachable : BIMState → Prop
  | init (boxes : List BBox) (h : ∀ b ∈ boxes, b.selected = false) :
      Reachable (set_boxes boxes)
  | select (s : BIMState) (i : Option Nat) (hs : Reachable s)
      (hi : ∀ k, i = some k → k < s.boxes.length) :
      Reachable (select_box s i)
  | create (s s' : BIMState) (cs : CanvasState) (sx sy ex ey : Int)
      (classes : List CClassInfo) (ob : Option BBox) (hs : Reachable s)
      (h : create_box cs s sx sy ex ey classes = .ok (s', ob)) :
      Reachable s'
  | delete (s : BIMState) (hs : Reachable s) :
      Reachable (delete_selected_box s)

/-- The selection invariant: the remembered index is in range exactly when
present, and a box's `selected` flag is set iff it is the remembered
box. -/
def SelInv (s : BIMState) : Prop :=
  (∀ k, s.selectedIdx = some k → k < s.boxes.length) ∧
  ∀ j (hj : j < s.boxes.length), (s.boxes[j].selected = true ↔ s.selectedIdx = some j)

/-! Concrete instances used by the per-claim witnesses and
counterexamples. -/

/-- A canvas at scale 1 with no pan (fit of an image at its own size). -/
def csUnit : CanvasState := ⟨1, 0, 0, 0, 0, 0, 0⟩

/-- A canvas zoomed out to a tenth: `scaleFactor = 1/10 > 0`. -/
def csTenth : CanvasState := ⟨1/10, 0, 0, 0, 0, 0, 0⟩

/-- A canvas at scale 2 with nonzero pan offsets. -/
def csDouble : CanvasState := ⟨2, 3, 4, 0, 0, 0, 0⟩

/-- A degenerate canvas with `scaleFactor = 0`. -/
def csZero : CanvasState := ⟨0, 0, 0, 0, 0, 0, 0⟩

/-- A canvas at scale 1 whose resize gesture started on a 40×40 box at
(5, 5). -/
def csResize : CanvasState := ⟨1, 0, 0, 5, 5, 40, 40⟩

/-- A plain unselected 40×40 box. -/
def boxPlain : BBox := ⟨5, 5, 40, 40, 1, "", false, "class_1"⟩

/-- A model of `re.match` whose pattern `"["` is an invalid regular
expression: calling it with that pattern raises `re.error`, any other
pattern matches everything. -/
def rematchFail : PyRegex := fun pattern _text =>
  if pattern = "[" then .error "unterminated character set at position 0"
  else .ok true

/-- A class configuration whose class 1 carries the invalid regex
pattern `"["`. -/
def cfgBadRegex : VClassConfig := ⟨[⟨1, "mrz", some "["⟩]⟩

/-! ### Truncation toward zero: bounds -/

theorem tdiv_bounds_nonneg (n d : ℤ) (hd : 0 < d) (hn : 0 ≤ n) :
    d * (n.tdiv d) ≤ n ∧ n < d * (n.tdiv d) + d := by
  rw [Int.tdiv_eq_ediv hn (le_of_lt hd)]
  have h1 := Int.ediv_add_emod n d
  have h2 := Int.emod_nonneg n (show d ≠ 0 by omega)
  have h3 := Int.emod_lt_of_pos n hd
  omega

theorem tdiv_bounds_nonpos (n d : ℤ) (hd : 0 < d) (hn : n ≤ 0) :
    n ≤ d * (n.tdiv d) ∧ d * (n.tdiv d) < n + d := by
  obtain ⟨hb1, hb2⟩ := tdiv_bounds_nonneg (-n) d hd (by omega)
  have hrel : n.tdiv d = -((-n).tdiv d) := by
    have := Int.neg_tdiv n d
    omega
  rw [hrel]
  have hm : d * -((-n).tdiv d) = -(d * ((-n).tdiv d)) := by ring
  rw [hm]
  omega

theorem intCast_le_div {t n d : ℤ} (hd : 0 < d) (h : d * t ≤ n) :
    (t : ℚ) ≤ (n : ℚ) / (d : ℚ) := by
  have hdq : (0 : ℚ) < (d : ℚ) := by exact_mod_cast hd
  rw [le_div_iff₀ hdq]
  have hz : t * d ≤ n := by nlinarith [mul_comm d t]
  exact_mod_cast hz

theorem div_le_intCast {t n d : ℤ} (hd : 0 < d) (h : n ≤ d * t) :
    (n : ℚ) / (d : ℚ) ≤ (t : ℚ) := by
  have hdq : (0 : ℚ) < (d : ℚ) := by exact_mod_cast hd
  rw [div_le_iff₀ hdq]
  have hz : n ≤ t * d := by nlinarith [mul_comm d t]
  exact_mod_cast hz

theorem div_lt_intCast_add_one {t n d : ℤ} (hd : 0 < d) (h : n < d * t + d) :
    (n : ℚ) / (d : ℚ) < (t : ℚ) + 1 := by
  have hdq : (0 : ℚ) < (d : ℚ) := by exact_mod_cast hd
  rw [div_lt_iff₀ hdq]
  have hz : n < (t + 1) * d := by nlinarith [mul_comm d t]
  calc (n : ℚ) < ((t + 1) * d : ℤ) := by exact_mod_cast hz
    _ = ((t : ℚ) + 1) * (d : ℚ) := by push_cast; ring

theorem intCast_lt_div_add_one {t n d : ℤ} (hd : 0 < d) (h : d * t < n + d) :
    (t : ℚ) < (n : ℚ) / (d : ℚ) + 1 := by
  have hdq : (0 : ℚ) < (d : ℚ) := by exact_mod_cast hd
  rw [← sub_lt_iff_lt_add]
  rw [show (t : ℚ) - 1 = ((t - 1 : ℤ) : ℚ) by push_cast; ring]
  rw [lt_div_iff₀ hdq]
  have hz : (t - 1) * d < n := by nlinarith [mul_comm d t]
  exact_mod_cast hz

theorem num_div_den_intCast (q : ℚ) : (q.num : ℚ) / ((q.den : ℤ) : ℚ) = q := by
  push_cast
  exact Rat.num_div_den q

theorem truncQ_coe_le_of_nonneg (q : ℚ) (hq : 0 ≤ q) : (truncQ q : ℚ) ≤ q := by
  have hd : (0 : ℤ) < (q.den : ℤ) := by exact_mod_cast q.den_pos
  obtain ⟨h1, _⟩ := tdiv_bounds_nonneg q.num q.den hd (Rat.num_nonneg.2 hq)
  calc (truncQ q : ℚ) ≤ (q.num : ℚ) / ((q.den : ℤ) : ℚ) := intCast_le_div hd h1
    _ = q := num_div_den_intCast q

theorem lt_truncQ_add_one_of_nonneg (q : ℚ) (hq : 0 ≤ q) : q < (truncQ q : ℚ) + 1 := by
  have hd : (0 : ℤ) < (q.den : ℤ) := by exact_mod_cast q.den_pos
  obtain ⟨_, h2⟩ := tdiv_bounds_nonneg q.num q.den hd (Rat.num_nonneg.2 hq)
  calc q = (q.num : ℚ) / ((q.den : ℤ) : ℚ) := (num_div_den_intCast q).symm
    _ < (truncQ q : ℚ) + 1 := div_lt_intCast_add_one hd h2

theorem le_truncQ_of_nonpos (q : ℚ) (hq : q ≤ 0) : q ≤ (truncQ q : ℚ) := by
  have hd : (0 : ℤ) < (q.den : ℤ) := by exact_mod_cast q.den_pos
  obtain ⟨h1, _⟩ := tdiv_bounds_nonpos q.num q.den hd (Rat.num_nonpos.2 hq)
  calc q = (q.num : ℚ) / ((q.den : ℤ) : ℚ) := (num_div_den_intCast q).symm
    _ ≤ (truncQ q : ℚ) := div_le_intCast hd h1

theorem truncQ_lt_add_one_of_nonpos (q : ℚ) (hq : q ≤ 0) : (truncQ q : ℚ) < q + 1 := by
  have hd : (0 : ℤ) < (q.den : ℤ) := by exact_mod_cast q.den_pos
  obtain ⟨_, h2⟩ := tdiv_bounds_nonpos q.num q.den hd (Rat.num_nonpos.2 hq)
  calc (truncQ q : ℚ) < (q.num : ℚ) / ((q.den : ℤ) : ℚ) + 1 := intCast_lt_div_add_one hd h2
    _ = q + 1 := by rw [num_div_den_intCast q]

theorem truncQ_eq_of_eq_intCast {q : ℚ} {n : ℤ} (h : q = (n : ℚ)) : truncQ q = n := by
  subst h
  rw [truncQ, Rat.num_intCast, Rat.den_intCast, Nat.cast_one, Int.tdiv_one]

theorem truncQ_eq_zero_of_lt_one {q : ℚ} (h0 : 0 ≤ q) (h1 : q < 1) : truncQ q = 0 := by
  have hle : (truncQ q : ℚ) ≤ q := truncQ_coe_le_of_nonneg q h0
  have hgt : q < (truncQ q : ℚ) + 1 := lt_truncQ_add_one_of_nonneg q h0
  have hub : (truncQ q : ℚ) < 1 := lt_of_le_of_lt hle h1
  have hlb : (0 : ℚ) < (truncQ q : ℚ) + 1 := lt_of_le_of_lt h0 hgt
  have h2 : truncQ q < 1 := by exact_mod_cast hub
  have h3 : (0 : ℤ) < truncQ q + 1 := by exact_mod_cast hlb
  omega

/-! ### C5: fourfold 90° rotation is the identity -/

theorem rotate90_eq_map (bs : List DatBox) (W H : Int) :
    rotate_bounding_boxes bs 90 W H
      = bs.map (fun box => ⟨box.y, W - box.x - box.width, box.height, box.width,
          box.class_id, box.ocr_text⟩) := by
  cases bs with
  | nil => rfl
  | cons b rest =>
    unfold rotate_bounding_boxes
    rw [show ((b :: rest).isEmpty || decide ((90 : Int) % 360 = 0)) = false from rfl]
    simp [show (90 : Int) % 360 = 90 from by decide]

/-- C5: for every list of boxes and original image size `(W, H)`, applying
the 90°-clockwise branch of `ImageRotator.rotate_bounding_boxes` four
times, swapping the supplied image dimensions at each step, returns every
box to exactly its original `x`, `y`, `width`, `height` (and class id and
OCR text) — exact integer equality. -/
theorem c5_rotate90_four_times_id (boxes : List DatBox) (W H : Int) :
    rotate_bounding_boxes (rotate_bounding_boxes (rotate_bounding_boxes
      (rotate_bounding_boxes boxes 90 W H) 90 H W) 90 W H) 90 H W = boxes := by
  simp only [rotate90_eq_map, List.map_map]
  conv_rhs => rw [show boxes = boxes.map id from (List.map_id boxes).symm]
  refine List.map_congr_left ?_
  intro b _
  cases b with
  | mk x y w h cid ocr =>
    simp only [Function.comp_apply, id_eq, DatBox.mk.injEq]
    refine ⟨by ring, by ring, trivial, trivial, trivial, trivial⟩

/-! ### C3: a failed DAT write is swallowed and the state marked saved -/

/-- C3 (divergence from the claim): `DATParser.save_dat_file` catches
every exception internally (`raised = false` for every write outcome), so
on a failed write `LabelManager.save_to_file` still clears
`unsaved_changes` and returns `True` — the failure is *not* surfaced and
the state *is* marked saved, contradicting the claim. -/
theorem c3_failed_write_still_marks_saved :
    (∀ (writeOutcome : Except String Unit) (boxes : List DatBox),
      (save_dat_file writeOutcome boxes).raised = false) ∧
    save_to_file (.error "disk full") ⟨[⟨0, 0, 10, 10, 1, []⟩], true⟩
      = (true, ⟨[⟨0, 0, 10, 10, 1, []⟩], false⟩) := by
  constructor
  · intro writeOutcome boxes
    cases writeOutcome <;> rfl
  · rfl

/-! ### C9: no zero-scale guard in the coordinate transforms -/

/-- C9 (divergence from the claim): with `scaleFactor = 0` both
`canvas_to_image` and `update_box_position` divide by the scale with no
guard, raising `ZeroDivisionError` (modelled `none`) instead of
no-opping. -/
theorem c9_zero_scale_raises :
    canvas_to_image csZero 5 3 = none ∧
    update_box_position csZero boxPlain 1 1 = none := by
  constructor <;> simp [canvas_to_image, update_box_position, csZero]

/-! ### C2: a non-numeric class id aborts the rest of the parse -/

/-- C2 (divergence from the claim): in
`"1 0 0 10 10 #a\r\nZZZ 0 0 5 5 #b\r\n2 1 1 20 20 #c"` the second line's
class-id token `ZZZ` makes `int(parts[0])` raise; the exception escapes
the per-line loop to the outer handler, so only line 1's box is returned
and the well-formed line 3 is lost — the claim says line 3 would still be
returned. -/
theorem c2_nonnumeric_classid_aborts :
    parse_dat_file ("1 0 0 10 10 #a\r\nZZZ 0 0 5 5 #b\r\n2 1 1 20 20 #c".data)
        = [⟨0, 0, 10, 10, 1, "a".data⟩] ∧
    (⟨1, 1, 20, 20, 2, "c".data⟩ : DatBox)
        ∉ parse_dat_file ("1 0 0 10 10 #a\r\nZZZ 0 0 5 5 #b\r\n2 1 1 20 20 #c".data) := by
  constructor <;> decide

/-! ### C4: an invalid regex pattern fails closed, not open -/

/-- C4 counterexample: for class 1 of `cfgBadRegex` (whose configured
pattern `"["` raises `re.error`), `validate_ocr_text` returns `False` on
the nonempty text `"A"` — not `True` as the fail-open claim states. -/
theorem c4_invalid_regex_counterexample :
    ¬ (validate_ocr_text rematchFail cfgBadRegex "A" 1 = true) := by
  decide

/-- C4 as amended: for every class whose configured `regex_pattern` raises
`re.error`, OCR validation for that class degrades to always-*invalid* for
nonempty text (fail closed): `validate_ocr_text` returns `false` for every
nonempty `ocrText` of that class and `true` for empty text, and
`get_validation_status` surfaces the error in its `error` field as a value
instead of letting the exception propagate. -/
theorem c4_invalid_regex_fails_closed (rematch : PyRegex) (cfg : VClassConfig)
    (class_id : Int) (class_info : VClassInfo) (pat : String)
    (hci : get_class_info cfg class_id = some class_info)
    (hpat : class_info.regex_pattern = some pat)
    (herr : ∀ t, ∃ e, rematch pat t = .error e) :
    (∀ ocr_text, ocr_text ≠ "" → validate_ocr_text rematch cfg ocr_text class_id = false) ∧
    validate_ocr_text rematch cfg "" class_id = true ∧
    (∀ ocr_text, ocr_text ≠ "" → ∃ e,
      get_validation_status rematch cfg ocr_text class_id
        = ⟨false, none, some ("Invalid regex pattern: " ++ e), none⟩) := by
  refine ⟨?_, ?_, ?_⟩
  · intro ocr_text hne
    obtain ⟨e, he⟩ := herr ocr_text
    simp [validate_ocr_text, hne, hci, hpat, he]
  · simp [validate_ocr_text]
  · intro ocr_text hne
    obtain ⟨e, he⟩ := herr ocr_text
    refine ⟨e, ?_⟩
    simp [get_validation_status, hne, hci, hpat, he]

/-- Witness for C4: the amended theorem applied to the concrete invalid
pattern `"["` of `cfgBadRegex`. -/
theorem c4_invalid_regex_fails_closed_witness :
    validate_ocr_text rematchFail cfgBadRegex "ID123" 1 = false ∧
    validate_ocr_text rematchFail cfgBadRegex "" 1 = true := by
  have h := c4_invalid_regex_fails_closed rematchFail cfgBadRegex 1 ⟨1, "mrz", some "["⟩ "["
    (by decide) rfl (fun t => ⟨"unterminated character set at position 0", rfl⟩)
  exact ⟨h.1 "ID123" (by decide), h.2.1⟩

theorem truncQ_intCast (n : ℤ) : truncQ ((n : ℤ) : ℚ) = n :=
  truncQ_eq_of_eq_intCast rfl

/-! ### C7: minimum box size on resize and create -/

/-- C7: any resize that would produce `width < 10` or `height < 10` clamps
the offending dimension to exactly `10`, the clamp being applied after the
handle-specific delta formula (`update_box_size_raw`): for every handle
and delta the resulting box satisfies `10 ≤ width` and `10 ≤ height`, a
dimension under 10 becomes exactly 10, a dimension at least 10 is kept,
and the position fields are those the delta formula produced.  Any box a
completed create gesture adds likewise satisfies the minimum size. -/
theorem c7_min_size_clamp :
    (∀ (cs : CanvasState) (box : BBox) (canvas_dx canvas_dy : Int) (handle : String),
      cs.scale_factor ≠ 0 →
      update_box_size cs box canvas_dx canvas_dy handle
        = some (clampMin10 (update_box_size_raw cs box canvas_dx canvas_dy handle)) ∧
      ∀ b, update_box_size cs box canvas_dx canvas_dy handle = some b →
        10 ≤ b.width ∧ 10 ≤ b.height ∧
        ((update_box_size_raw cs box canvas_dx canvas_dy handle).width < 10 → b.width = 10) ∧
        (10 ≤ (update_box_size_raw cs box canvas_dx canvas_dy handle).width →
          b.width = (update_box_size_raw cs box canvas_dx canvas_dy handle).width) ∧
        ((update_box_size_raw cs box canvas_dx canvas_dy handle).height < 10 → b.height = 10) ∧
        (10 ≤ (update_box_size_raw cs box canvas_dx canvas_dy handle).height →
          b.height = (update_box_size_raw cs box canvas_dx canvas_dy handle).height) ∧
        b.x = (update_box_size_raw cs box canvas_dx canvas_dy handle).x ∧
        b.y = (update_box_size_raw cs box canvas_dx canvas_dy handle).y) ∧
    (∀ (cs : CanvasState) (s : BIMState) (sx sy ex ey : Int) (classes : List CClassInfo)
       (s2 : BIMState) (nb : BBox),
      create_box cs s sx sy ex ey classes = .ok (s2, some nb) →
      10 ≤ nb.width ∧ 10 ≤ nb.height) := by
  constructor
  · intro cs box canvas_dx canvas_dy handle hs
    have heq : update_box_size cs box canvas_dx canvas_dy handle
        = some (clampMin10 (update_box_size_raw cs box canvas_dx canvas_dy handle)) := by
      rw [update_box_size, if_neg hs]
    refine ⟨heq, ?_⟩
    intro b hb
    rw [heq] at hb
    have hbe : clampMin10 (update_box_size_raw cs box canvas_dx canvas_dy handle) = b :=
      Option.some.inj hb
    subst hbe
    refine ⟨?_, ?_, ?_, ?_, ?_, ?_, rfl, rfl⟩
    · dsimp only [clampMin10]
      split_ifs with h
      · linarith
      · linarith [not_lt.1 h]
    · dsimp only [clampMin10]
      split_ifs with h
      · linarith
      · linarith [not_lt.1 h]
    · intro h
      dsimp only [clampMin10]
      rw [if_pos h]
    · intro h
      dsimp only [clampMin10]
      rw [if_neg (not_lt.2 h)]
    · intro h
      dsimp only [clampMin10]
      rw [if_pos h]
    · intro h
      dsimp only [clampMin10]
      rw [if_neg (not_lt.2 h)]
  · intro cs s sx sy ex ey classes s2 nb h
    unfold create_box at h
    cases h1 : canvas_to_image cs sx sy with
    | none => rw [h1] at h; simp at h
    | some p1 =>
      cases h2 : canvas_to_image cs ex ey with
      | none => rw [h1, h2] at h; simp at h
      | some p2 =>
        obtain ⟨sxi, syi⟩ := p1
        obtain ⟨exi, eyi⟩ := p2
        rw [h1, h2] at h
        dsimp only at h
        by_cases hth : (decide ((exi - sxi).natAbs < 10) || decide ((eyi - syi).natAbs < 10)) = true
        · rw [if_pos hth] at h
          simp at h
        · rw [if_neg hth] at h
          simp only [Bool.or_eq_true, decide_eq_true_eq, not_or, Nat.not_lt] at hth
          cases classes with
          | nil => simp at h
          | cons c0 rest =>
            simp only [Except.ok.injEq, Prod.mk.injEq, Option.some.injEq] at h
            obtain ⟨-, hnb⟩ := h
            subst hnb
            constructor
            · show (10 : ℚ) ≤ (((exi - sxi).natAbs : ℕ) : ℚ)
              exact_mod_cast hth.1
            · show (10 : ℚ) ≤ (((eyi - syi).natAbs : ℕ) : ℚ)
              exact_mod_cast hth.2

/-- Witness for C7: the clamp equation of the theorem at a concrete resize
(the east handle pulled 30 canvas pixels at scale 1). -/
theorem c7_min_size_clamp_witness :
    update_box_size csResize boxPlain 30 0 "e"
      = some (clampMin10 (update_box_size_raw csResize boxPlain 30 0 "e")) :=
  (c7_min_size_clamp.1 csResize boxPlain 30 0 "e" (by norm_num [csResize])).1

/-! ### C6: the create-box gesture and its size threshold -/

theorem canvas_to_image_csUnit (x y : Int) : canvas_to_image csUnit x y = some (x, y) := by
  rw [canvas_to_image, if_neg (by norm_num [csUnit])]
  have hx : ((x : ℤ) : ℚ) - csUnit.offset_x = ((x : ℤ) : ℚ) := by norm_num [csUnit]
  have hs : csUnit.scale_factor = 1 := rfl
  rw [hx, hs, div_one, div_one]
  have hy : ((y : ℤ) : ℚ) - (0 : ℚ) = ((y : ℤ) : ℚ) := by norm_num
  rw [show csUnit.offset_y = (0 : ℚ) from rfl, hy, truncQ_intCast, truncQ_intCast]

/-- C6 counterexample: a gesture from canvas `(0,0)` to `(10,10)` at
scale 1 has image-space deltas `|Δx| = |Δy| = 10`; the claim says the
gesture aborts (`|Δ| ≤ 10` aborts), but the code creates and selects a
10×10 box (its check is `|Δ| < 10`). -/
theorem c6_delta_ten_creates_box :
    create_box csUnit (set_boxes []) 0 0 10 10 [⟨1, "code"⟩]
      = .ok (⟨[⟨0, 0, 10, 10, 1, "", true, "code"⟩], some 0⟩,
             some ⟨0, 0, 10, 10, 1, "", true, "code"⟩) := by
  unfold create_box
  rw [canvas_to_image_csUnit, canvas_to_image_csUnit]
  dsimp only
  rw [if_neg (by decide)]
  simp only [firstUnusedClassId, set_boxes, select_box, setSelAt, List.map, List.find?,
    List.contains, List.nil_append, List.length_nil]
  norm_num

/-- C6 as amended: with a nonzero scale and a nonempty class list, the
create gesture aborts with no box created exactly when the image-space
extent is under 10 on either axis (`|Δ| < 10`, i.e. an extent of *at
least* 10 is required on both axes — not strictly greater than 10 as the
claim states); otherwise a box with `x`/`y` the coordinate minima and
`width`/`height` the absolute deltas is appended, given the first unused
configured class id (or the first configured id if all are used), and
selected. -/
theorem c6_create_box_threshold (cs : CanvasState) (s : BIMState) (sx sy ex ey : Int)
    (classes : List CClassInfo) (hcls : classes ≠ []) (hs : cs.scale_factor ≠ 0)
    (sxi syi exi eyi : Int)
    (h1 : canvas_to_image cs sx sy = some (sxi, syi))
    (h2 : canvas_to_image cs ex ey = some (exi, eyi)) :
    (((exi - sxi).natAbs < 10 ∨ (eyi - syi).natAbs < 10) →
      create_box cs s sx sy ex ey classes = .ok (s, none)) ∧
    (10 ≤ (exi - sxi).natAbs → 10 ≤ (eyi - syi).natAbs →
      ∃ nb : BBox,
        create_box cs s sx sy ex ey classes
          = .ok (select_box { s with boxes := s.boxes ++ [nb] } (some s.boxes.length),
                 some { nb with selected := true }) ∧
        nb.x = ((min sxi exi : ℤ) : ℚ) ∧ nb.y = ((min syi eyi : ℤ) : ℚ) ∧
        nb.width = (((exi - sxi).natAbs : ℕ) : ℚ) ∧
        nb.height = (((eyi - syi).natAbs : ℕ) : ℚ) ∧
        nb.class_id = firstUnusedClassId (classes.map (·.id)) s.boxes ∧
        nb.ocr_text = "" ∧
        (select_box { s with boxes := s.boxes ++ [nb] } (some s.boxes.length)).selectedIdx
          = some s.boxes.length) := by
  cases classes with
  | nil => exact absurd rfl hcls
  | cons c0 rest =>
    constructor
    · intro hsmall
      unfold create_box
      rw [h1, h2]
      dsimp only
      rw [if_pos (by simpa using hsmall)]
    · intro hw hh
      unfold create_box
      rw [h1, h2]
      dsimp only
      rw [if_neg (by simp; omega)]
      exact ⟨_, rfl, rfl, rfl, rfl, rfl, rfl, rfl, rfl⟩

/-- Witness for C6: the amended theorem at scale 1 with a single
configured class, for the gesture `(0,0) → (30,20)`. -/
theorem c6_create_box_threshold_witness :
    10 ≤ ((30 : ℤ) - 0).natAbs ∧ 10 ≤ ((20 : ℤ) - 0).natAbs ∧
    ∃ nb : BBox,
      create_box csUnit (set_boxes []) 0 0 30 20 [⟨1, "code"⟩]
        = .ok (select_box { set_boxes [] with boxes := (set_boxes []).boxes ++ [nb] }
                 (some (set_boxes []).boxes.length),
               some { nb with selected := true }) ∧
      nb.x = ((min 0 30 : ℤ) : ℚ) ∧ nb.y = ((min 0 20 : ℤ) : ℚ) ∧
      nb.width = ((((30 : ℤ) - 0).natAbs : ℕ) : ℚ) ∧
      nb.height = ((((20 : ℤ) - 0).natAbs : ℕ) : ℚ) ∧
      nb.class_id = firstUnusedClassId (([⟨1, "code"⟩] : List CClassInfo).map (·.id))
          (set_boxes []).boxes ∧
      nb.ocr_text = "" ∧
      (select_box { set_boxes [] with boxes := (set_boxes []).boxes ++ [nb] }
          (some (set_boxes []).boxes.length)).selectedIdx
        = some (set_boxes []).boxes.length := by
  refine ⟨by decide, by decide, ?_⟩
  exact (c6_create_box_threshold csUnit (set_boxes []) 0 0 30 20 [⟨1, "code"⟩]
    (by simp) (by norm_num [csUnit]) 0 0 30 20
    (canvas_to_image_csUnit 0 0) (canvas_to_image_csUnit 30 20)).2 (by decide) (by decide)

/-! ### C8: the transform round trip -/

theorem truncQ_near (q : ℚ) : -1 < (truncQ q : ℚ) - q ∧ (truncQ q : ℚ) - q < 1 := by
  rcases le_total 0 q with h | h
  · have h1 := truncQ_coe_le_of_nonneg q h
    have h2 := lt_truncQ_add_one_of_nonneg q h
    constructor <;> linarith
  · have h1 := le_truncQ_of_nonpos q h
    have h2 := truncQ_lt_add_one_of_nonpos q h
    constructor <;> linarith

theorem truncQ_int_near (v : ℤ) (u : ℚ) (hl : (v : ℚ) - 1 < u) (hr : u < (v : ℚ) + 1) :
    v - 1 ≤ truncQ u ∧ truncQ u ≤ v + 1 := by
  rcases le_total 0 u with h | h
  · have h1 := truncQ_coe_le_of_nonneg u h
    have h2 := lt_truncQ_add_one_of_nonneg u h
    have ha : ((truncQ u : ℤ) : ℚ) < ((v + 1 : ℤ) : ℚ) := by push_cast; linarith
    have hb : (((v - 2) : ℤ) : ℚ) < ((truncQ u : ℤ) : ℚ) := by push_cast; linarith
    have ha2 : truncQ u < v + 1 := by exact_mod_cast ha
    have hb2 : v - 2 < truncQ u := by exact_mod_cast hb
    omega
  · have h1 := le_truncQ_of_nonpos u h
    have h2 := truncQ_lt_add_one_of_nonpos u h
    have ha : ((truncQ u : ℤ) : ℚ) < ((v + 2 : ℤ) : ℚ) := by push_cast; linarith
    have hb : (((v - 1) : ℤ) : ℚ) < ((truncQ u : ℤ) : ℚ) := by push_cast; linarith
    have ha2 : truncQ u < v + 2 := by exact_mod_cast ha
    have hb2 : v - 1 < truncQ u := by exact_mod_cast hb
    omega

theorem trunc_axis_roundtrip (v : ℤ) (s o : ℚ) (hs1 : 1 ≤ s) :
    v - 1 ≤ truncQ ((((truncQ ((v : ℚ) * s + o) : ℤ) : ℚ) - o) / s) ∧
    truncQ ((((truncQ ((v : ℚ) * s + o) : ℤ) : ℚ) - o) / s) ≤ v + 1 := by
  have hs0 : (0 : ℚ) < s := lt_of_lt_of_le one_pos hs1
  obtain ⟨hn1, hn2⟩ := truncQ_near ((v : ℚ) * s + o)
  have hueq : ((((truncQ ((v : ℚ) * s + o) : ℤ) : ℚ) - o) / s) - (v : ℚ)
      = (((truncQ ((v : ℚ) * s + o) : ℤ) : ℚ) - ((v : ℚ) * s + o)) / s := by
    field_simp
    ring
  have habs1 : ((((truncQ ((v : ℚ) * s + o) : ℤ) : ℚ) - o) / s) - (v : ℚ) < 1 := by
    rw [hueq, div_lt_one hs0]
    linarith
  have habs2 : -1 < ((((truncQ ((v : ℚ) * s + o) : ℤ) : ℚ) - o) / s) - (v : ℚ) := by
    have h2 : -(((((truncQ ((v : ℚ) * s + o) : ℤ) : ℚ) - o) / s) - (v : ℚ)) < 1 := by
      rw [hueq, ← neg_div, div_lt_one hs0]
      linarith
    linarith
  exact truncQ_int_near v _ (by linarith) (by linarith)

/-- C8 as amended: for every canvas state with `scaleFactor ≥ 1` and all
image coordinates `(x, y)`, `canvas_to_image (image_to_canvas (x, y))`
succeeds and equals `(x, y)` to within ±1 per component (integer
truncation).  The claim's weaker premise `scaleFactor > 0` is not enough:
see the counterexample at `scaleFactor = 1/10`, where the round trip is
off by 7. -/
theorem c8_transform_roundtrip (cs : CanvasState) (hs : 1 ≤ cs.scale_factor) (x y : Int) :
    ∃ p : ℤ × ℤ,
      canvas_to_image cs (image_to_canvas cs x y).1 (image_to_canvas cs x y).2 = some p ∧
      (p.1 - x).natAbs ≤ 1 ∧ (p.2 - y).natAbs ≤ 1 := by
  have hs0 : cs.scale_factor ≠ 0 := by
    intro h
    rw [h] at hs
    norm_num at hs
  rw [image_to_canvas, canvas_to_image, if_neg hs0]
  dsimp only
  refine ⟨_, rfl, ?_, ?_⟩
  · obtain ⟨ha, hb⟩ := trunc_axis_roundtrip x cs.scale_factor cs.offset_x hs
    omega
  · obtain ⟨ha, hb⟩ := trunc_axis_roundtrip y cs.scale_factor cs.offset_y hs
    omega

/-- Witness for C8: the amended round trip at scale 2 with pan offsets
`(3, 4)`, for the image point `(5, 3)`. -/
theorem c8_transform_roundtrip_witness :
    ∃ p : ℤ × ℤ,
      canvas_to_image csDouble (image_to_canvas csDouble 5 3).1 (image_to_canvas csDouble 5 3).2
        = some p ∧ (p.1 - 5).natAbs ≤ 1 ∧ (p.2 - 3).natAbs ≤ 1 :=
  c8_transform_roundtrip csDouble (by norm_num [csDouble]) 5 3

/-- C8 counterexample: at `scaleFactor = 1/10` (which satisfies the
claim's `scaleFactor > 0`) the round trip of the image point `(7, 7)`
returns `(0, 0)`, off by 7 — far beyond the claimed ±1. -/
theorem c8_small_scale_counterexample :
    canvas_to_image csTenth (image_to_canvas csTenth 7 7).1 (image_to_canvas csTenth 7 7).2
      = some (0, 0) ∧ 1 < ((0 : ℤ) - 7).natAbs := by
  refine ⟨?_, by decide⟩
  have himg : image_to_canvas csTenth 7 7 = (0, 0) := by
    rw [image_to_canvas]
    have h1 : ((7 : ℤ) : ℚ) * csTenth.scale_factor + csTenth.offset_x = 7 / 10 := by
      norm_num [csTenth]
    have h2 : ((7 : ℤ) : ℚ) * csTenth.scale_factor + csTenth.offset_y = 7 / 10 := by
      norm_num [csTenth]
    rw [h1, h2, truncQ_eq_zero_of_lt_one (by norm_num) (by norm_num)]
  rw [himg]
  rw [canvas_to_image, if_neg (by norm_num [csTenth])]
  have h0x : (((0 : ℤ) : ℚ) - csTenth.offset_x) / csTenth.scale_factor = ((0 : ℤ) : ℚ) := by
    norm_num [csTenth]
  have h0y : (((0 : ℤ) : ℚ) - csTenth.offset_y) / csTenth.scale_factor = ((0 : ℤ) : ℚ) := by
    norm_num [csTenth]
  rw [h0x, h0y, truncQ_intCast]

/-! ### C10: at most one selected box, tracked by the selection -/

theorem setSelAt_length (l : List BBox) (i : Nat) (v : Bool) :
    (setSelAt l i v).length = l.length := by
  induction l generalizing i with
  | nil => rfl
  | cons b rest ih => cases i <;> simp [setSelAt, ih]

theorem setSelAt_getElem (l : List BBox) (i : Nat) (v : Bool) (j : Nat)
    (hj : j < l.length) (hj2 : j < (setSelAt l i v).length) :
    (setSelAt l i v)[j] = if j = i then { l[j] with selected := v } else l[j] := by
  induction l generalizing i j with
  | nil => exact absurd hj (Nat.not_lt_zero j)
  | cons b rest ih =>
    cases i with
    | zero =>
      cases j with
      | zero => simp [setSelAt]
      | succ j2 => simp [setSelAt]
    | succ i2 =>
      cases j with
      | zero => simp [setSelAt]
      | succ j2 =>
        have hj3 : j2 < rest.length := by simpa using hj
        have hj4 : j2 < (setSelAt rest i2 v).length := by
          rw [setSelAt_length]
          exact hj3
        simp only [setSelAt, List.getElem_cons_succ]
        rw [ih i2 j2 hj3 hj4]
        by_cases hcase : j2 = i2
        · rw [if_pos hcase, if_pos (by omega)]
        · rw [if_neg hcase, if_neg (by omega)]

theorem selInv_mk (bs : List BBox) (i : Option Nat)
    (hi : ∀ k, i = some k → k < bs.length)
    (hbs : ∀ j (hj : j < bs.length), bs[j].selected = false) :
    SelInv ⟨i.elim bs (fun k => setSelAt bs k true), i⟩ := by
  rcases i with _ | k0
  · constructor
    · intro k hk
      cases hk
    · intro j hj
      simp only [Option.elim] at hj ⊢
      rw [hbs j hj]
      simp
  · have hk0 : k0 < bs.length := hi k0 rfl
    constructor
    · intro k hk
      simp only [Option.some.injEq] at hk
      subst hk
      simpa [Option.elim, setSelAt_length] using hk0
    · intro j hj
      have hj0 : j < bs.length := by simpa [Option.elim, setSelAt_length] using hj
      simp only [Option.elim] at hj ⊢
      rw [setSelAt_getElem bs k0 true j hj0 (by rw [setSelAt_length]; exact hj0)]
      by_cases hcase : j = k0
      · subst hcase
        simp
      · rw [if_neg hcase, hbs j hj0]
        simp only [Option.some.injEq]
        constructor
        · intro hx
          cases hx
        · intro hx
          exact absurd hx.symm hcase

theorem selInv_select (s : BIMState) (i : Option Nat) (h : SelInv s)
    (hi : ∀ k, i = some k → k < s.boxes.length) : SelInv (select_box s i) := by
  obtain ⟨hlen, hsel⟩ := h
  rcases hsi : s.selectedIdx with _ | j0
  · have hres : select_box s i
        = ⟨i.elim s.boxes (fun k => setSelAt s.boxes k true), i⟩ := by
      rcases i with _ | k <;> (rw [select_box.eq_def, hsi]; rfl)
    rw [hres]
    refine selInv_mk s.boxes i hi ?_
    intro j hj
    have := hsel j hj
    rw [hsi] at this
    rcases hbool : s.boxes[j].selected with _ | _
    · rfl
    · cases this.1 hbool
  · have hj0len : j0 < s.boxes.length := hlen j0 hsi
    have hres : select_box s i
        = ⟨i.elim (setSelAt s.boxes j0 false)
            (fun k => setSelAt (setSelAt s.boxes j0 false) k true), i⟩ := by
      rcases i with _ | k <;> (rw [select_box.eq_def, hsi]; rfl)
    rw [hres]
    refine selInv_mk (setSelAt s.boxes j0 false) i
      (fun k hk => by rw [setSelAt_length]; exact hi k hk) ?_
    intro j hj
    have hj0 : j < s.boxes.length := by simpa [setSelAt_length] using hj
    rw [setSelAt_getElem s.boxes j0 false j hj0 hj]
    by_cases hcase : j = j0
    · rw [if_pos hcase]
    · rw [if_neg hcase]
      have := hsel j hj0
      rw [hsi] at this
      rcases hbool : s.boxes[j].selected with _ | _
      · rfl
      · exact absurd (Option.some.inj (this.1 hbool)) (fun he => hcase he.symm)

theorem selInv_delete (s : BIMState) (h : SelInv s) : SelInv (delete_selected_box s) := by
  obtain ⟨hlen, hsel⟩ := h
  rcases hsi : s.selectedIdx with _ | j0
  · have hres : delete_selected_box s = s := by
      rw [delete_selected_box.eq_def, hsi]
    rw [hres]
    exact ⟨hlen, hsel⟩
  · have hres : delete_selected_box s = ⟨s.boxes.eraseIdx j0, none⟩ := by
      rw [delete_selected_box.eq_def, hsi]
    rw [hres]
    have hmem : ∀ b ∈ s.boxes.eraseIdx j0, b.selected = false := by
      intro b hb
      rw [List.mem_eraseIdx_iff_getElem] at hb
      obtain ⟨i2, hilen, hij, hrfl⟩ := hb
      subst hrfl
      have := hsel i2 hilen
      rw [hsi] at this
      rcases hbool : (s.boxes[i2]).selected with _ | _
      · rfl
      · exact absurd (Option.some.inj (this.1 hbool)) (fun he => hij he.symm)
    constructor
    · intro k hk
      cases hk
    · intro j hj
      simp only []
      rw [hmem _ (List.getElem_mem hj)]
      simp

theorem selInv_create (cs : CanvasState) (s s' : BIMState) (sx sy ex ey : Int)
    (classes : List CClassInfo) (ob : Option BBox)
    (h : create_box cs s sx sy ex ey classes = .ok (s', ob)) (hinv : SelInv s) :
    SelInv s' := by
  unfold create_box at h
  cases h1 : canvas_to_image cs sx sy with
  | none => rw [h1] at h; simp at h
  | some p1 =>
    cases h2 : canvas_to_image cs ex ey with
    | none => rw [h1, h2] at h; simp at h
    | some p2 =>
      obtain ⟨sxi, syi⟩ := p1
      obtain ⟨exi, eyi⟩ := p2
      rw [h1, h2] at h
      dsimp only at h
      by_cases hth : (decide ((exi - sxi).natAbs < 10) || decide ((eyi - syi).natAbs < 10)) = true
      · rw [if_pos hth] at h
        simp only [Except.ok.injEq, Prod.mk.injEq] at h
        obtain ⟨hs', -⟩ := h
        exact hs' ▸ hinv
      · rw [if_neg hth] at h
        cases classes with
        | nil => simp at h
        | cons c0 rest =>
          simp only [Except.ok.injEq, Prod.mk.injEq] at h
          obtain ⟨hs', -⟩ := h
          subst hs'
          obtain ⟨hlen, hsel⟩ := hinv
          apply selInv_select
          · constructor
            · intro k hk
              have := hlen k hk
              simp only [List.length_append, List.length_cons, List.length_nil]
              omega
            · intro j hj
              have hjlen : j < s.boxes.length + 1 := by
                simpa [List.length_append] using hj
              by_cases hcase : j < s.boxes.length
              · rw [List.getElem_append j hj]
                rw [dif_pos hcase]
                exact hsel j hcase
              · rw [List.getElem_append j hj]
                rw [dif_neg hcase]
                have hj0 : j - s.boxes.length = 0 := by omega
                simp only [hj0, List.getElem_cons_zero]
                constructor
                · intro hx
                  cases hx
                · intro hx
                  have := hlen j hx
                  omega
          · intro k hk
            cases hk
            simp [List.length_append]

theorem countP_selected_le_one (l : List BBox) (o : Option Nat)
    (h : ∀ j (hj : j < l.length), (l[j].selected = true ↔ o = some j)) :
    l.countP (·.selected) ≤ 1 := by
  induction l generalizing o with
  | nil => simp
  | cons b rest ih =>
    rw [List.countP_cons]
    by_cases hb : b.selected = true
    · have ho : o = some 0 := (h 0 (by simp)).1 (by simpa using hb)
      have hzero : rest.countP (·.selected) = 0 := by
        rw [List.countP_eq_zero]
        intro a ha
        rw [List.mem_iff_getElem] at ha
        obtain ⟨j, hj, hrfl⟩ := ha
        subst hrfl
        have hiff := h (j + 1) (by simpa using Nat.succ_lt_succ hj)
        rw [List.getElem_cons_succ, ho] at hiff
        intro hsel2
        have h01 := Option.some.inj (hiff.1 hsel2)
        omega
      simp [hb, hzero]
    · have hbf : b.selected = false := by
        rcases hbool : b.selected with _ | _
        · rfl
        · exact absurd hbool hb
      simp only [hbf, Bool.false_eq_true, if_false, Nat.add_zero]
      refine ih (match o with | some (k + 1) => some k | _ => none) ?_
      intro j hj
      have hiff := h (j + 1) (by simpa using Nat.succ_lt_succ hj)
      rw [List.getElem_cons_succ] at hiff
      rw [hiff]
      rcases o with _ | k
      · simp
      · cases k with
        | zero =>
          simp only [Option.some.injEq]
          constructor
          · intro hx
            omega
          · intro hx
            cases hx
        | succ k2 =>
          simp only [Option.some.injEq]
          omega

/-- C10: starting from `set_boxes` with freshly parsed boxes (all
`selected` flags false), after any sequence of `select_box` (with a box of
the list or `None`), `create_box` and `delete_selected_box` calls, at most
one box of the managed list has `selected = true`, and `selected_box`
(the remembered index) is in range and designates exactly the selected box
— or is `None` when no box of the list is selected. -/
theorem c10_selection_invariant (s : BIMState) (h : Reachable s) :
    s.boxes.countP (·.selected) ≤ 1 ∧
    (∀ k, s.selectedIdx = some k → k < s.boxes.length) ∧
    (∀ j (hj : j < s.boxes.length), (s.boxes[j].selected = true ↔ s.selectedIdx = some j)) := by
  have hinv : SelInv s := by
    induction h with
    | init boxes hb =>
      constructor
      · intro k hk
        simp [set_boxes] at hk
      · intro j hj
        simp only [set_boxes] at hj ⊢
        rw [hb _ (List.getElem_mem hj)]
        simp
    | select s2 i hs2 hi ih => exact selInv_select s2 i ih hi
    | create s2 s2' cs sx sy ex ey classes ob hs2 hcr ih =>
      exact selInv_create cs s2 s2' sx sy ex ey classes ob hcr ih
    | delete s2 hs2 ih => exact selInv_delete s2 ih
  exact ⟨countP_selected_le_one s.boxes s.selectedIdx hinv.2, hinv.1, hinv.2⟩

/-- Witness for C10: the invariant at the concrete state reached by
loading one fresh box and selecting it. -/
theorem c10_selection_invariant_witness :
    (select_box (set_boxes [boxPlain]) (some 0)).boxes.countP (·.selected) ≤ 1 ∧
    (∀ k, (select_box (set_boxes [boxPlain]) (some 0)).selectedIdx = some k →
      k < (select_box (set_boxes [boxPlain]) (some 0)).boxes.length) ∧
    (∀ j (hj : j < (select_box (set_boxes [boxPlain]) (some 0)).boxes.length),
      ((select_box (set_boxes [boxPlain]) (some 0)).boxes[j].selected = true
        ↔ (select_box (set_boxes [boxPlain]) (some 0)).selectedIdx = some j)) :=
  c10_selection_invariant _
    (Reachable.select _ (some 0)
      (Reachable.init [boxPlain] (by
        intro b hb
        rw [List.mem_singleton] at hb
        subst hb
        rfl))
      (by
        intro k hk
        cases hk
        simp [set_boxes]))

/-! ### C1: digits print/parse round trip -/

theorem digitsToNat_append_single (l : List Char) (c : Char) :
    digitsToNat (l ++ [c]) = 10 * digitsToNat l + (c.toNat - 48) := by
  unfold digitsToNat
  rw [List.foldl_append]
  rfl

theorem digitChar_isDigit (m : Nat) (h : m < 10) : (Nat.digitChar m).isDigit = true := by
  interval_cases m <;> decide

theorem digitChar_val (m : Nat) (h : m < 10) : (Nat.digitChar m).toNat - 48 = m := by
  interval_cases m <;> decide

theorem natDigitsAux_spec (fuel : Nat) :
    ∀ n, n < fuel →
      natDigitsAux fuel n ≠ [] ∧ (natDigitsAux fuel n).all Char.isDigit = true ∧
      digitsToNat (natDigitsAux fuel n) = n := by
  induction fuel with
  | zero => intro n h; omega
  | succ fuel ih =>
    intro n h
    rw [natDigitsAux]
    by_cases hn : n < 10
    · rw [if_pos hn]
      refine ⟨by simp, ?_, ?_⟩
      · simp [digitChar_isDigit n hn]
      · show digitsToNat ([] ++ [Nat.digitChar n]) = n
        rw [digitsToNat_append_single, digitChar_val n hn]
        show 10 * 0 + n = n
        omega
    · rw [if_neg hn]
      have hdiv : n / 10 < fuel := by
        have h1 : n / 10 < n := Nat.div_lt_self (by omega) (by omega)
        omega
      obtain ⟨hne, hall, hval⟩ := ih (n / 10) hdiv
      refine ⟨by simp, ?_, ?_⟩
      · rw [List.all_append]
        simp [hall, digitChar_isDigit (n % 10) (Nat.mod_lt n (by omega))]
      · rw [digitsToNat_append_single, hval, digitChar_val (n % 10) (Nat.mod_lt n (by omega))]
        omega

theorem natDigits_ne_nil (n : Nat) : natDigits n ≠ [] :=
  (natDigitsAux_spec (n + 1) n (by omega)).1

theorem natDigits_all_digit (n : Nat) : (natDigits n).all Char.isDigit = true :=
  (natDigitsAux_spec (n + 1) n (by omega)).2.1

theorem digitsToNat_natDigits (n : Nat) : digitsToNat (natDigits n) = n :=
  (natDigitsAux_spec (n + 1) n (by omega)).2.2

theorem isDigit_ne {c d : Char} (h : c.isDigit = true) (hd : d.isDigit = false) : c ≠ d := by
  intro he
  subst he
  rw [h] at hd
  cases hd

theorem isDigit_code {c : Char} (h : c.isDigit = true) : 48 ≤ c.toNat ∧ c.toNat ≤ 57 := by
  simp only [Char.isDigit, Bool.and_eq_true, decide_eq_true_eq] at h
  obtain ⟨h1, h2⟩ := h
  exact ⟨h1, h2⟩

theorem isPySpace_of_isDigit {c : Char} (h : c.isDigit = true) : isPySpace c = false := by
  have hb := isDigit_code h
  unfold isPySpace
  have e1 : c ≠ ' ' := by
    intro he; subst he; revert hb; decide
  have e2 : c ≠ '\t' := by
    intro he; subst he; revert hb; decide
  have e3 : c ≠ '\n' := by
    intro he; subst he; revert hb; decide
  have e4 : c ≠ '\r' := by
    intro he; subst he; revert hb; decide
  have e5 : c ≠ '\x0B' := by
    intro he; subst he; revert hb; decide
  have e6 : c ≠ '\x0C' := by
    intro he; subst he; revert hb; decide
  simp [e1, e2, e3, e4, e5, e6]

theorem intToChars_mem (i : Int) : ∀ c ∈ intToChars i, c.isDigit = true ∨ c = '-' := by
  intro c hc
  unfold intToChars at hc
  split_ifs at hc with hneg
  · rcases List.mem_cons.1 hc with h | h
    · exact Or.inr h
    · exact Or.inl (List.all_eq_true.1 (natDigits_all_digit i.natAbs) c h)
  · exact Or.inl (List.all_eq_true.1 (natDigits_all_digit i.toNat) c hc)

theorem tokenChar_not_space {c : Char} (h : c.isDigit = true ∨ c = '-') :
    isPySpace c = false := by
  rcases h with h | h
  · exact isPySpace_of_isDigit h
  · subst h
    decide

theorem tokenChar_ne_hash {c : Char} (h : c.isDigit = true ∨ c = '-') : c ≠ '#' := by
  rcases h with h | h
  · exact isDigit_ne h (by decide)
  · subst h
    decide

theorem tokenChar_ne_space {c : Char} (h : c.isDigit = true ∨ c = '-') : c ≠ ' ' := by
  intro he
  subst he
  exact absurd (tokenChar_not_space h) (by decide)

theorem tokenChar_ne_dot {c : Char} (h : c.isDigit = true ∨ c = '-') : c ≠ '.' := by
  rcases h with h | h
  · exact isDigit_ne h (by decide)
  · subst h
    decide

theorem space_not_mem_intToChars (i : Int) : ' ' ∉ intToChars i := by
  intro hmem
  have := tokenChar_not_space (intToChars_mem i ' ' hmem)
  simp [isPySpace] at this

theorem hash_not_mem_intToChars (i : Int) : '#' ∉ intToChars i := by
  intro hmem
  exact absurd rfl (tokenChar_ne_hash (intToChars_mem i '#' hmem))

theorem dot_not_mem_intToChars (i : Int) : '.' ∉ intToChars i := by
  intro hmem
  exact absurd rfl (tokenChar_ne_dot (intToChars_mem i '.' hmem))

/-! ### C1: `breakOn` and `pyStrip` -/

theorem breakOn_append_of_not_mem (sep : Char) (a b : List Char) (ha : sep ∉ a) :
    breakOn sep (a ++ sep :: b) = some (a, b) := by
  induction a with
  | nil =>
    simp [breakOn]
  | cons c a2 ih =>
    have hcs : c ≠ sep := fun he => ha (he ▸ List.mem_cons_self c a2)
    have ha2 : sep ∉ a2 := fun hm => ha (List.mem_cons_of_mem c hm)
    simp only [List.cons_append, breakOn, if_neg hcs]
    rw [show a2.append (sep :: b) = a2 ++ sep :: b from rfl, ih ha2]
    rfl

theorem breakOn_eq_none_of_not_mem (sep : Char) (l : List Char) (h : sep ∉ l) :
    breakOn sep l = none := by
  induction l with
  | nil => rfl
  | cons c rest ih =>
    have hcs : c ≠ sep := fun he => h (he ▸ List.mem_cons_self c rest)
    simp only [breakOn, if_neg hcs]
    rw [ih (fun hm => h (List.mem_cons_of_mem c hm))]
    rfl

theorem dropWhile_eq_self_of_head (p : Char → Bool) (l : List Char)
    (h : ∀ c, l.head? = some c → p c = false) : l.dropWhile p = l := by
  cases l with
  | nil => rfl
  | cons c rest =>
    rw [List.dropWhile_cons, h c rfl]
    simp

theorem pyStrip_eq_self (l : List Char)
    (h1 : ∀ c, l.head? = some c → isPySpace c = false)
    (h2 : ∀ c, l.getLast? = some c → isPySpace c = false) : pyStrip l = l := by
  unfold pyStrip
  rw [dropWhile_eq_self_of_head _ _ h1]
  rw [dropWhile_eq_self_of_head _ _ (fun c hc => h2 c (by rwa [← List.head?_reverse]))]
  exact List.reverse_reverse l

theorem mem_of_getLast?_eq : ∀ {l : List Char} {c : Char}, l.getLast? = some c → c ∈ l
  | [], _, h => by simp at h
  | [d], c, h => by
    simp only [List.getLast?_singleton, Option.some.injEq] at h
    subst h
    exact List.mem_singleton.2 rfl
  | d :: e :: rest, c, h => by
    rw [List.getLast?_cons_cons] at h
    exact List.mem_cons_of_mem d (mem_of_getLast?_eq h)

theorem pyStrip_eq_self_of_all (l : List Char) (h : ∀ c ∈ l, isPySpace c = false) :
    pyStrip l = l := by
  refine pyStrip_eq_self l ?_ ?_
  · intro c hc
    cases l with
    | nil => simp at hc
    | cons d rest =>
      simp only [List.head?_cons, Option.some.injEq] at hc
      subst hc
      exact h d (List.mem_cons_self d rest)
  · intro c hc
    exact h c (mem_of_getLast?_eq hc)

/-! ### C1: `int(str(i))` and `int(float(str(i)))` round trips -/

theorem intDigitsRest_of_all (l : List Char) (h : l.all Char.isDigit = true) :
    intDigitsRest l = true := by
  induction l with
  | nil => rfl
  | cons c rest ih =>
    simp only [List.all_cons, Bool.and_eq_true] at h
    rw [intDigitsRest.eq_def]
    dsimp only
    rw [if_neg (isDigit_ne h.1 (by decide))]
    simp [h.1, ih h.2]

theorem intDigits_of_digits (l : List Char) (hne : l ≠ []) (h : l.all Char.isDigit = true) :
    intDigits l = true := by
  cases l with
  | nil => exact absurd rfl hne
  | cons c rest =>
    simp only [List.all_cons, Bool.and_eq_true] at h
    simp [intDigits, h.1, intDigitsRest_of_all rest h.2]

theorem filter_underscore_of_digits (l : List Char) (h : l.all Char.isDigit = true) :
    l.filter (· ≠ '_') = l := by
  refine List.filter_eq_self.2 ?_
  intro c hc
  have hd := List.all_eq_true.1 h c hc
  simp only [ne_eq, decide_not, Bool.not_eq_eq_eq_not, Bool.not_true, decide_eq_false_iff_not]
  exact isDigit_ne hd (by decide)

theorem parsePyInt_intToChars (i : Int) : parsePyInt (intToChars i) = some i := by
  have hstrip : pyStrip (intToChars i) = intToChars i :=
    pyStrip_eq_self_of_all _ (fun c hc => tokenChar_not_space (intToChars_mem i c hc))
  by_cases hneg : i < 0
  · have hform : intToChars i = '-' :: natDigits i.natAbs := by
      rw [intToChars, if_pos hneg]
    rw [hform] at hstrip
    unfold parsePyInt
    rw [hform, hstrip]
    show (if intDigits (natDigits i.natAbs) then
        some (-(digitsToNat ((natDigits i.natAbs).filter (· ≠ '_')) : Int)) else none) = some i
    rw [if_pos (intDigits_of_digits _ (natDigits_ne_nil _) (natDigits_all_digit _))]
    rw [filter_underscore_of_digits _ (natDigits_all_digit _), digitsToNat_natDigits]
    have hval : ((i.natAbs : ℤ)) = -i := by omega
    rw [hval, neg_neg]
  · have hform : intToChars i = natDigits i.toNat := by
      rw [intToChars, if_neg hneg]
    cases hnd : natDigits i.toNat with
    | nil => exact absurd hnd (natDigits_ne_nil _)
    | cons c rest =>
      have hall : (c :: rest).all Char.isDigit = true := hnd ▸ natDigits_all_digit i.toNat
      have hc : c.isDigit = true := by
        simp only [List.all_cons, Bool.and_eq_true] at hall
        exact hall.1
      rw [hform, hnd] at hstrip
      unfold parsePyInt
      rw [hform, hnd, hstrip]
      have hcp : c ≠ '+' := isDigit_ne hc (by decide)
      have hcm : c ≠ '-' := isDigit_ne hc (by decide)
      split
      · next r heq =>
        rw [List.cons.injEq] at heq
        exact absurd heq.1 hcp
      · next r heq =>
        rw [List.cons.injEq] at heq
        exact absurd heq.1 hcm
      · next =>
        rw [if_pos (intDigits_of_digits _ (by simp) hall)]
        rw [filter_underscore_of_digits _ hall]
        rw [show digitsToNat (c :: rest) = digitsToNat (natDigits i.toNat) from by rw [hnd]]
        rw [digitsToNat_natDigits]
        have hval : ((i.toNat : ℤ)) = i := by omega
        rw [hval]

theorem dot_not_mem_of_digits (l : List Char) (hall : l.all Char.isDigit = true) : '.' ∉ l := by
  intro hm
  exact absurd (List.all_eq_true.1 hall _ hm) (by decide)

theorem pyFloatIntPart_digits (l : List Char) (hne : l ≠ []) (hall : l.all Char.isDigit = true) :
    pyFloatIntPart l = some (digitsToNat l) := by
  unfold pyFloatIntPart
  rw [breakOn_eq_none_of_not_mem _ _ (dot_not_mem_of_digits l hall)]
  rw [if_pos]
  simp [hall, List.isEmpty_iff, hne]

theorem pyIntFloat_intToChars (i : Int) : pyIntFloat (intToChars i) = some i := by
  have hstrip : pyStrip (intToChars i) = intToChars i :=
    pyStrip_eq_self_of_all _ (fun c hc => tokenChar_not_space (intToChars_mem i c hc))
  by_cases hneg : i < 0
  · have hform : intToChars i = '-' :: natDigits i.natAbs := by
      rw [intToChars, if_pos hneg]
    rw [hform] at hstrip
    unfold pyIntFloat
    rw [hform, hstrip]
    show (pyFloatIntPart (natDigits i.natAbs)).map (fun ip => -(ip : Int)) = some i
    rw [pyFloatIntPart_digits _ (natDigits_ne_nil _) (natDigits_all_digit _),
      digitsToNat_natDigits]
    show some (-(i.natAbs : Int)) = some i
    have hval : ((i.natAbs : ℤ)) = -i := by omega
    rw [hval, neg_neg]
  · have hform : intToChars i = natDigits i.toNat := by
      rw [intToChars, if_neg hneg]
    cases hnd : natDigits i.toNat with
    | nil => exact absurd hnd (natDigits_ne_nil _)
    | cons c rest =>
      have hall : (c :: rest).all Char.isDigit = true := hnd ▸ natDigits_all_digit i.toNat
      have hc : c.isDigit = true := by
        simp only [List.all_cons, Bool.and_eq_true] at hall
        exact hall.1
      rw [hform, hnd] at hstrip
      unfold pyIntFloat
      rw [hform, hnd, hstrip]
      split
      · next r heq =>
        rw [List.cons.injEq] at heq
        exact absurd heq.1 (isDigit_ne hc (by decide))
      · next r heq =>
        rw [List.cons.injEq] at heq
        exact absurd heq.1 (isDigit_ne hc (by decide))
      · next =>
        rw [pyFloatIntPart_digits _ (by simp) hall]
        rw [show digitsToNat (c :: rest) = digitsToNat (natDigits i.toNat) from by rw [hnd]]
        rw [digitsToNat_natDigits]
        show some ((i.toNat : Int)) = some i
        have hval : ((i.toNat : ℤ)) = i := by omega
        rw [hval]

/-! ### C1: whitespace splitting, stripping and sanitisation -/

theorem pySplitWsAux_word (w : List Char) (hw : ∀ c ∈ w, isPySpace c = false) :
    ∀ (cur rest : List Char),
      pySplitWsAux cur (w ++ rest) = pySplitWsAux (w.reverse ++ cur) rest := by
  induction w with
  | nil =>
    intro cur rest
    simp
  | cons c w2 ih =>
    intro cur rest
    have hc : isPySpace c = false := hw c (List.mem_cons_self c w2)
    show (if isPySpace c = true then _ else pySplitWsAux (c :: cur) (w2 ++ rest)) = _
    rw [hc]
    simp only [Bool.false_eq_true, if_false]
    rw [ih (fun d hd => hw d (List.mem_cons_of_mem c hd)) (c :: cur) rest]
    simp [List.append_assoc]

theorem pySplitWsAux_space (cur rest : List Char) (hcur : cur ≠ []) :
    pySplitWsAux cur (' ' :: rest) = cur.reverse :: pySplitWsAux [] rest := by
  show (if isPySpace ' ' = true then
      if cur.isEmpty then pySplitWsAux [] rest else cur.reverse :: pySplitWsAux [] rest
    else _) = _
  rw [show isPySpace ' ' = true from rfl]
  simp [List.isEmpty_iff, hcur]

theorem pySplitWsAux_final (cur : List Char) (hcur : cur ≠ []) :
    pySplitWsAux cur [] = [cur.reverse] := by
  simp [pySplitWsAux, List.isEmpty_iff, hcur]

theorem pySplitWs_four (X Y W H : List Char)
    (hX : X ≠ []) (hY : Y ≠ []) (hW : W ≠ []) (hH : H ≠ [])
    (hXc : ∀ c ∈ X, isPySpace c = false) (hYc : ∀ c ∈ Y, isPySpace c = false)
    (hWc : ∀ c ∈ W, isPySpace c = false) (hHc : ∀ c ∈ H, isPySpace c = false) :
    pySplitWs (X ++ ' ' :: (Y ++ ' ' :: (W ++ ' ' :: H))) = [X, Y, W, H] := by
  unfold pySplitWs
  rw [pySplitWsAux_word X hXc [] _, List.append_nil]
  rw [pySplitWsAux_space _ _ (by simp [hX]), List.reverse_reverse]
  rw [pySplitWsAux_word Y hYc [] _, List.append_nil]
  rw [pySplitWsAux_space _ _ (by simp [hY]), List.reverse_reverse]
  rw [pySplitWsAux_word W hWc [] _, List.append_nil]
  rw [pySplitWsAux_space _ _ (by simp [hW]), List.reverse_reverse]
  conv_lhs => rw [← List.append_nil H]
  rw [pySplitWsAux_word H hHc [] [], List.append_nil]
  rw [pySplitWsAux_final _ (by simp [hH]), List.reverse_reverse]

theorem pyStrip_append_space (m : List Char) (hm : m ≠ [])
    (h1 : ∀ c, m.head? = some c → isPySpace c = false)
    (h2 : ∀ c, m.getLast? = some c → isPySpace c = false) :
    pyStrip (m ++ [' ']) = m := by
  unfold pyStrip
  have hfront : (m ++ [' ']).dropWhile isPySpace = m ++ [' '] := by
    apply dropWhile_eq_self_of_head
    intro c hc
    cases m with
    | nil => exact absurd rfl hm
    | cons d rest =>
      simp only [List.cons_append, List.head?_cons, Option.some.injEq] at hc
      subst hc
      exact h1 d rfl
  rw [hfront, List.reverse_append]
  rw [show ([' '] : List Char).reverse ++ m.reverse = ' ' :: m.reverse from by simp]
  rw [List.dropWhile_cons, show isPySpace ' ' = true from rfl]
  simp only [if_true]
  rw [dropWhile_eq_self_of_head _ _ (fun c hc => h2 c (by rwa [← List.head?_reverse]))]
  exact List.reverse_reverse m

theorem sanitizeChar_ascii (c : Char) (h : c.toNat < 128) : sanitizeChar c = [c] := by
  unfold sanitizeChar
  split_ifs with h1 h2 h3 h4 h5 h6
  · rw [h1] at h; exact absurd h (by decide)
  · rw [h2] at h; exact absurd h (by decide)
  · rw [h3] at h; exact absurd h (by decide)
  · rw [h4] at h; exact absurd h (by decide)
  · rw [h5] at h; exact absurd h (by decide)
  · rw [h6] at h; exact absurd h (by decide)
  · rfl

theorem sanitize_eq_self (l : List Char) (h : ∀ c ∈ l, c.toNat < 128) : sanitize l = l := by
  induction l with
  | nil => rfl
  | cons c rest ih =>
    have hc := h c (List.mem_cons_self c rest)
    unfold sanitize
    rw [List.flatMap_cons, sanitizeChar_ascii c hc]
    rw [show ([c] ++ rest.flatMap sanitizeChar) = c :: rest.flatMap sanitizeChar from rfl]
    rw [List.filter_cons]
    have hco : (decide (c.toNat < 128)) = true := by simpa using hc
    simp only [hco, if_true]
    show c :: sanitize rest = c :: rest
    rw [ih (fun d hd => h d (List.mem_cons_of_mem c hd))]

/-! ### C1: parsing one serialized line -/

theorem intToChars_ne_nil (i : Int) : intToChars i ≠ [] := by
  unfold intToChars
  split_ifs
  · simp
  · exact natDigits_ne_nil _

theorem mem_of_head?_eq {l : List Char} {c : Char} (h : l.head? = some c) : c ∈ l := by
  cases l with
  | nil => simp at h
  | cons d rest =>
    simp only [List.head?_cons, Option.some.injEq] at h
    subst h
    exact List.mem_cons_self d rest

theorem cleanOcr_props (l : List Char) (h : cleanOcr l = true) :
    (∀ c ∈ l, c.toNat < 128 ∧ c ≠ '\r' ∧ c ≠ '\n') ∧
    (∀ c, l.getLast? = some c → isPySpace c = false) := by
  unfold cleanOcr at h
  rw [Bool.and_eq_true] at h
  obtain ⟨h1, h2⟩ := h
  constructor
  · intro c hc
    have := List.all_eq_true.1 h1 c hc
    simp only [Bool.and_eq_true, decide_eq_true_eq, bne_iff_ne, ne_eq] at this
    exact ⟨this.1.1, this.1.2, this.2⟩
  · intro c hc
    rw [hc] at h2
    simpa using h2

theorem parse_line_spec (raw line p0 rest1 coordp ocr c0 c1 c2 c3 : List Char)
    (cid x y w h : Int)
    (hstrip : pyStrip raw = line) (hne : line ≠ [])
    (hb1 : breakOn ' ' line = some (p0, rest1))
    (hcid : parsePyInt p0 = some cid)
    (hb2 : breakOn '#' rest1 = some (coordp, ocr))
    (hws : pySplitWs (pyStrip coordp) = [c0, c1, c2, c3])
    (hx : pyIntFloat c0 = some x) (hy : pyIntFloat c1 = some y)
    (hw : pyIntFloat c2 = some w) (hh : pyIntFloat c3 = some h) :
    parse_line raw = .box ⟨x, y, w, h, cid, ocr⟩ := by
  have hempty : line.isEmpty = false := by simpa [List.isEmpty_iff] using hne
  unfold parse_line
  simp only [hstrip, hempty, Bool.false_eq_true, if_false, hb1, hcid, hb2, hws, hx, hy, hw, hh]

theorem parse_line_lineOf (b : DatBox) (hc : cleanOcr b.ocr_text = true) :
    parse_line (lineOf b) = .box b := by
  obtain ⟨hchar, hlastOcr⟩ := cleanOcr_props _ hc
  have hsan : sanitize b.ocr_text = b.ocr_text :=
    sanitize_eq_self _ (fun c hcm => (hchar c hcm).1)
  have hXc := fun c hcm => tokenChar_not_space (intToChars_mem b.x c hcm)
  have hYc := fun c hcm => tokenChar_not_space (intToChars_mem b.y c hcm)
  have hWc := fun c hcm => tokenChar_not_space (intToChars_mem b.width c hcm)
  have hHc := fun c hcm => tokenChar_not_space (intToChars_mem b.height c hcm)
  -- the line decomposed at its first space
  have hsh1 : lineOf b = intToChars b.class_id ++ ' ' ::
      (intToChars b.x ++ (' ' :: (intToChars b.y ++ (' ' :: (intToChars b.width ++
        (' ' :: (intToChars b.height ++ (' ' :: ('#' :: b.ocr_text))))))))) := by
    simp [lineOf, hsan, List.cons_append, List.append_assoc]
  -- the remainder decomposed at its first hash
  have hsh2 : intToChars b.x ++ (' ' :: (intToChars b.y ++ (' ' :: (intToChars b.width ++
        (' ' :: (intToChars b.height ++ (' ' :: ('#' :: b.ocr_text)))))))) =
      (intToChars b.x ++ (' ' :: (intToChars b.y ++ (' ' :: (intToChars b.width ++
        (' ' :: (intToChars b.height ++ [' '])))))))  ++ '#' :: b.ocr_text := by
    simp [List.cons_append, List.append_assoc]
  -- the coordinate field with its trailing space stripped
  have hsh3 : intToChars b.x ++ (' ' :: (intToChars b.y ++ (' ' :: (intToChars b.width ++
        (' ' :: (intToChars b.height ++ [' '])))))) =
      (intToChars b.x ++ (' ' :: (intToChars b.y ++ (' ' :: (intToChars b.width ++
        (' ' :: intToChars b.height)))))) ++ [' '] := by
    simp [List.cons_append, List.append_assoc]
  have hsh4 : intToChars b.x ++ (' ' :: (intToChars b.y ++ (' ' :: (intToChars b.width ++
        (' ' :: intToChars b.height))))) =
      (intToChars b.x ++ (' ' :: (intToChars b.y ++ (' ' :: (intToChars b.width ++ [' ']))))) ++
        intToChars b.height := by
    simp [List.cons_append, List.append_assoc]
  refine parse_line_spec (lineOf b) (lineOf b) (intToChars b.class_id)
      (intToChars b.x ++ ' ' :: (intToChars b.y ++ ' ' :: (intToChars b.width ++ ' ' ::
        (intToChars b.height ++ ' ' :: '#' :: b.ocr_text))))
      (intToChars b.x ++ ' ' :: (intToChars b.y ++ ' ' :: (intToChars b.width ++ ' ' ::
        (intToChars b.height ++ [' '])))) b.ocr_text
      (intToChars b.x) (intToChars b.y) (intToChars b.width) (intToChars b.height)
      b.class_id b.x b.y b.width b.height ?_ ?_ ?_
      (parsePyInt_intToChars b.class_id) ?_ ?_
      (pyIntFloat_intToChars b.x) (pyIntFloat_intToChars b.y)
      (pyIntFloat_intToChars b.width) (pyIntFloat_intToChars b.height)
  -- pyStrip is the identity on the full line
  · refine pyStrip_eq_self (lineOf b) ?_ ?_
    · intro c hcp
      rw [hsh1, List.head?_append_of_ne_nil _ (intToChars_ne_nil b.class_id)] at hcp
      exact tokenChar_not_space (intToChars_mem _ c (mem_of_head?_eq hcp))
    · intro c hcl
      rw [hsh1, hsh2] at hcl
      rw [show intToChars b.class_id ++ ' ' ::
          ((intToChars b.x ++ (' ' :: (intToChars b.y ++ (' ' :: (intToChars b.width ++
            (' ' :: (intToChars b.height ++ [' '])))))))  ++ '#' :: b.ocr_text) =
          (intToChars b.class_id ++ ' ' ::
            (intToChars b.x ++ (' ' :: (intToChars b.y ++ (' ' :: (intToChars b.width ++
              (' ' :: (intToChars b.height ++ [' ']))))))))  ++ '#' :: b.ocr_text from by
          simp [List.cons_append, List.append_assoc]] at hcl
      rw [List.getLast?_append_cons] at hcl
      cases hocr : b.ocr_text with
      | nil =>
        rw [hocr] at hcl
        simp only [List.getLast?_singleton, Option.some.injEq] at hcl
        subst hcl
        decide
      | cons e rest =>
        rw [hocr, List.getLast?_cons_cons] at hcl
        exact hlastOcr c (by rw [hocr]; exact hcl)
  -- the line is nonempty
  · rw [hsh1]
    simp
  -- first space split
  · rw [hsh1]
    exact breakOn_append_of_not_mem ' ' _ _ (space_not_mem_intToChars _)
  -- first hash split
  · rw [hsh2]
    refine breakOn_append_of_not_mem '#' _ _ ?_
    intro hmem
    rcases List.mem_append.1 hmem with hm | hm
    · exact hash_not_mem_intToChars _ hm
    rcases List.mem_cons.1 hm with hm | hm
    · exact absurd hm (by decide)
    rcases List.mem_append.1 hm with hm | hm
    · exact hash_not_mem_intToChars _ hm
    rcases List.mem_cons.1 hm with hm | hm
    · exact absurd hm (by decide)
    rcases List.mem_append.1 hm with hm | hm
    · exact hash_not_mem_intToChars _ hm
    rcases List.mem_cons.1 hm with hm | hm
    · exact absurd hm (by decide)
    rcases List.mem_append.1 hm with hm | hm
    · exact hash_not_mem_intToChars _ hm
    rcases List.mem_cons.1 hm with hm | hm
    · exact absurd hm (by decide)
    cases hm
  -- whitespace split of the stripped coordinate field
  · rw [hsh3]
    rw [pyStrip_append_space _ ?_ ?_ ?_]
    · exact pySplitWs_four _ _ _ _ (intToChars_ne_nil _) (intToChars_ne_nil _)
        (intToChars_ne_nil _) (intToChars_ne_nil _) hXc hYc hWc hHc
    · simp [intToChars_ne_nil]
    · intro c hcp
      rw [List.head?_append_of_ne_nil _ (intToChars_ne_nil b.x)] at hcp
      exact hXc c (mem_of_head?_eq hcp)
    · intro c hcl
      rw [hsh4, List.getLast?_append_of_ne_nil _ (intToChars_ne_nil b.height)] at hcl
      exact hHc c (mem_of_getLast?_eq hcl)

/-! ### C1: line splitting of the serialized file and the round trip -/

theorem splitNL_cons_of_ne (c : Char) (rest : List Char) (hcr : c ≠ '\r') (hcn : c ≠ '\n') :
    splitNL (c :: rest) = match splitNL rest with
      | [] => [[c]]
      | l :: ls => (c :: l) :: ls := by
  rw [splitNL.eq_def]
  split
  · rename_i heq
    exact absurd heq (by simp)
  · rename_i heq
    rw [List.cons.injEq] at heq
    exact absurd heq.1 hcr
  · rename_i heq
    rw [List.cons.injEq] at heq
    exact absurd heq.1 hcr
  · rename_i heq
    rw [List.cons.injEq] at heq
    exact absurd heq.1 hcn
  · rename_i heq
    rw [List.cons.injEq] at heq
    obtain ⟨h1, h2⟩ := heq
    subst h1
    subst h2
    rfl

theorem splitNL_no_newline (l : List Char) (h : ∀ c ∈ l, c ≠ '\r' ∧ c ≠ '\n') :
    splitNL l = [l] := by
  induction l with
  | nil => rfl
  | cons c rest ih =>
    have hc := h c (List.mem_cons_self c rest)
    rw [splitNL_cons_of_ne c rest hc.1 hc.2,
      ih (fun d hd => h d (List.mem_cons_of_mem c hd))]

theorem splitNL_append_crlf (l rest : List Char) (h : ∀ c ∈ l, c ≠ '\r' ∧ c ≠ '\n') :
    splitNL (l ++ '\r' :: '\n' :: rest) = l :: splitNL rest := by
  induction l with
  | nil => rfl
  | cons c l2 ih =>
    have hc := h c (List.mem_cons_self c l2)
    rw [List.cons_append, splitNL_cons_of_ne c _ hc.1 hc.2,
      ih (fun d hd => h d (List.mem_cons_of_mem c hd))]

theorem splitNL_joinCRLF (ls : List (List Char))
    (h : ∀ l ∈ ls, ∀ c ∈ l, c ≠ '\r' ∧ c ≠ '\n') (hne : ls ≠ []) :
    splitNL (joinCRLF ls) = ls := by
  induction ls with
  | nil => exact absurd rfl hne
  | cons l ls2 ih =>
    cases ls2 with
    | nil => exact splitNL_no_newline l (h l (List.mem_cons_self l []))
    | cons l2 ls3 =>
      rw [show joinCRLF (l :: l2 :: ls3) = l ++ '\r' :: '\n' :: joinCRLF (l2 :: ls3) from rfl]
      rw [splitNL_append_crlf _ _ (h l (List.mem_cons_self l (l2 :: ls3)))]
      rw [ih (fun m hm => h m (List.mem_cons_of_mem l hm)) (by simp)]

theorem tokenChar_ne_cr {c : Char} (h : c.isDigit = true ∨ c = '-') :
    c ≠ '\r' ∧ c ≠ '\n' := by
  rcases h with h | h
  · exact ⟨isDigit_ne h (by decide), isDigit_ne h (by decide)⟩
  · subst h
    exact ⟨by decide, by decide⟩

theorem lineOf_no_newline (b : DatBox) (hc : cleanOcr b.ocr_text = true) :
    ∀ c ∈ lineOf b, c ≠ '\r' ∧ c ≠ '\n' := by
  intro c hm
  obtain ⟨hchar, -⟩ := cleanOcr_props _ hc
  have hsan : sanitize b.ocr_text = b.ocr_text :=
    sanitize_eq_self _ (fun d hd => (hchar d hd).1)
  have hshape : lineOf b = intToChars b.class_id ++ ' ' :: (intToChars b.x ++ ' ' ::
      (intToChars b.y ++ ' ' :: (intToChars b.width ++ ' ' ::
        (intToChars b.height ++ ' ' :: '#' :: b.ocr_text)))) := by
    simp [lineOf, hsan, List.cons_append, List.append_assoc]
  rw [hshape] at hm
  rcases List.mem_append.1 hm with hm | hm
  · exact tokenChar_ne_cr (intToChars_mem _ _ hm)
  rcases List.mem_cons.1 hm with hm | hm
  · subst hm; exact ⟨by decide, by decide⟩
  rcases List.mem_append.1 hm with hm | hm
  · exact tokenChar_ne_cr (intToChars_mem _ _ hm)
  rcases List.mem_cons.1 hm with hm | hm
  · subst hm; exact ⟨by decide, by decide⟩
  rcases List.mem_append.1 hm with hm | hm
  · exact tokenChar_ne_cr (intToChars_mem _ _ hm)
  rcases List.mem_cons.1 hm with hm | hm
  · subst hm; exact ⟨by decide, by decide⟩
  rcases List.mem_append.1 hm with hm | hm
  · exact tokenChar_ne_cr (intToChars_mem _ _ hm)
  rcases List.mem_cons.1 hm with hm | hm
  · subst hm; exact ⟨by decide, by decide⟩
  rcases List.mem_append.1 hm with hm | hm
  · exact tokenChar_ne_cr (intToChars_mem _ _ hm)
  rcases List.mem_cons.1 hm with hm | hm
  · subst hm; exact ⟨by decide, by decide⟩
  rcases List.mem_cons.1 hm with hm | hm
  · subst hm; exact ⟨by decide, by decide⟩
  · exact ⟨(hchar c hm).2.1, (hchar c hm).2.2⟩

theorem parseDatLines_map_lineOf (bs : List DatBox)
    (h : ∀ b ∈ bs, cleanOcr b.ocr_text = true) :
    parseDatLines (bs.map lineOf) = bs := by
  induction bs with
  | nil => rfl
  | cons b rest ih =>
    simp only [List.map_cons, parseDatLines,
      parse_line_lineOf b (h b (List.mem_cons_self b rest))]
    rw [ih (fun d hd => h d (List.mem_cons_of_mem b hd))]

theorem insertByClassId_perm (b : DatBox) (l : List DatBox) :
    List.Perm (insertByClassId b l) (b :: l) := by
  induction l with
  | nil => exact List.Perm.refl _
  | cons c rest ih =>
    show (if c.class_id < b.class_id then c :: insertByClassId b rest else b :: c :: rest).Perm _
    split_ifs with hlt
    · exact (ih.cons c).trans (List.Perm.swap b c rest)
    · exact List.Perm.refl _

theorem sortByClassId_perm (l : List DatBox) : List.Perm (sortByClassId l) l := by
  induction l with
  | nil => exact List.Perm.refl _
  | cons b rest ih =>
    show List.Perm (insertByClassId b (sortByClassId rest)) (b :: rest)
    exact (insertByClassId_perm b (sortByClassId rest)).trans (ih.cons b)

/-- C1 as amended: for every list of boxes whose `ocrText` is ASCII-only
*and* free of CR/LF and trailing whitespace (`cleanOcr`), parsing the text
produced by serialization yields exactly the input boxes sorted ascending
by `classId` — identical `classId`, `x`, `y`, `width`, `height` and
`ocrText` for each input box, up to that reordering (stated both as the
equation with the stable sort and as a permutation).  Plain "ASCII-only"
is not enough: ASCII OCR text with trailing whitespace is clipped by
`line.strip()` on re-parse (see the counterexample). -/
theorem c1_dat_roundtrip (boxes : List DatBox)
    (h : ∀ b ∈ boxes, cleanOcr b.ocr_text = true) :
    parse_dat_file (save_dat_content boxes) = sortByClassId boxes ∧
    List.Perm (parse_dat_file (save_dat_content boxes)) boxes := by
  have hsorted : ∀ b ∈ sortByClassId boxes, cleanOcr b.ocr_text = true := fun b hb =>
    h b ((sortByClassId_perm boxes).subset hb)
  have heq : parse_dat_file (save_dat_content boxes) = sortByClassId boxes := by
    unfold parse_dat_file save_dat_content
    cases hs : sortByClassId boxes with
    | nil => rfl
    | cons b rest =>
      rw [hs] at hsorted
      have hlines : ∀ l ∈ (List.map lineOf (b :: rest)), ∀ c ∈ l, c ≠ '\r' ∧ c ≠ '\n' := by
        intro l hl
        rw [List.mem_map] at hl
        obtain ⟨b2, hb2, hrfl⟩ := hl
        subst hrfl
        exact lineOf_no_newline b2 (hsorted b2 hb2)
      rw [splitNL_joinCRLF _ hlines (by simp)]
      exact parseDatLines_map_lineOf _ hsorted
  exact ⟨heq, heq ▸ sortByClassId_perm boxes⟩

/-- C1 counterexample: the single box with the ASCII-only OCR text
`"A "` (trailing space) does not survive the round trip: `line.strip()`
in the parser removes the trailing space, so the parsed box differs from
the input and no permutation matches. -/
theorem c1_trailing_space_counterexample :
    ¬ List.Perm (parse_dat_file (save_dat_content [⟨0, 0, 10, 10, 1, "A ".data⟩]))
      [⟨0, 0, 10, 10, 1, "A ".data⟩] := by
  decide

/-- Witness for C1: the amended round trip on two concrete boxes with
clean ASCII OCR texts (one containing an interior `#`), given out of
class-id order. -/
theorem c1_dat_roundtrip_witness :
    (∀ b ∈ ([⟨10, 20, 30, 40, 9, "A#B".data⟩, ⟨1, 2, 3, 4, 2, "x y".data⟩] : List DatBox),
      cleanOcr b.ocr_text = true) ∧
    List.Perm
      (parse_dat_file (save_dat_content
        [⟨10, 20, 30, 40, 9, "A#B".data⟩, ⟨1, 2, 3, 4, 2, "x y".data⟩]))
      [⟨10, 20, 30, 40, 9, "A#B".data⟩, ⟨1, 2, 3, 4, 2, "x y".data⟩] :=
  ⟨by decide,
   (c1_dat_roundtrip [⟨10, 20, 30, 40, 9, "A#B".data⟩, ⟨1, 2, 3, 4, 2, "x y".data⟩]
     (by decide)).2⟩
